import Mathlib

/-
  Verification of the backend abstraction and routing layer of the
  my_deepagents repository (src/my_deepagents/backends/).

  Shallow embedding conventions:
  * Python `str` is embedded as `List Char` (abbrev `Str`), so that the
    exact character-level behaviour of split / join / count / replace /
    splitlines can be stated and computed.
  * Python `bytes` is embedded as `List Nat` (one entry per byte).
  * Python `dict` (insertion-ordered) is embedded as an association list;
    assignment keeps the position of an existing key and appends new keys,
    exactly like CPython dicts.
  * Wall-clock timestamps (datetime.now) are threaded as an explicit `now`
    argument.
  * Backends reached through the composite router are embedded as an
    abstract family of functions indexed by a backend identifier.
-/

abbrev Str := List Char

abbrev Bytes := List Nat

/-- Character codes Python `str.strip()` / `str.isspace` treat as whitespace. -/
def pySpaceCodes : List Nat :=
  [9, 10, 11, 12, 13, 28, 29, 30, 31, 32, 0x85, 0xA0, 0x1680,
   0x2000, 0x2001, 0x2002, 0x2003, 0x2004, 0x2005, 0x2006, 0x2007,
   0x2008, 0x2009, 0x200A, 0x2028, 0x2029, 0x202F, 0x205F, 0x3000]

def pyIsSpace (c : Char) : Bool := pySpaceCodes.contains c.toNat

/-- Python `s.strip()`: drop leading and trailing whitespace. -/
def pyStrip (s : Str) : Str :=
  ((s.dropWhile pyIsSpace).reverse.dropWhile pyIsSpace).reverse

/-- Character codes Python `str.splitlines()` treats as line boundaries. -/
def pyLineBreakCodes : List Nat := [10, 11, 12, 13, 28, 29, 30, 0x85, 0x2028, 0x2029]

/-- Python `content.split(chr(10))`: split on every newline character; a
trailing newline yields a trailing empty element; the result is never `[]`. -/
def splitNl : Str → List Str
  | [] => [[]]
  | c :: cs =>
    if c = '\n' then [] :: splitNl cs
    else
      match splitNl cs with
      | [] => [[c]]
      | l :: ls => (c :: l) :: ls

/-- Python `chr(10).join(lines)`. -/
def joinNl : List Str → Str
  | [] => []
  | [l] => l
  | l :: ls => l ++ '\n' :: joinNl ls

/-- Python `content.splitlines()`: split at every line-boundary character,
treating a carriage return followed by a newline as a single boundary, and
producing no trailing empty element. -/
def pySplitlines : Str → List Str
  | [] => []
  | '\r' :: '\n' :: rest => [] :: pySplitlines rest
  | c :: cs =>
    if pyLineBreakCodes.contains c.toNat then [] :: pySplitlines cs
    else
      match pySplitlines cs with
      | [] => [[c]]
      | l :: ls => (c :: l) :: ls

/-- Scanning loop of Python `s.count(pat)` for a non-empty pattern, with an
explicit fuel argument equal to the length of the scanned suffix (each step
consumes at least one character, so the fuel never runs out on the defining
call and the kernel can evaluate the function). -/
def pyCountGo (pat : Str) : Nat → Str → Nat
  | _, [] => 0
  | 0, _ :: _ => 0
  | fuel + 1, c :: cs =>
    if pat.isPrefixOf (c :: cs) then pyCountGo pat fuel ((c :: cs).drop pat.length) + 1
    else pyCountGo pat fuel cs

/-- Python `s.count(pat)`: number of non-overlapping occurrences scanning
from the left; `count` of the empty pattern is `len(s) + 1`. -/
def pyCount (s pat : Str) : Nat :=
  if pat = [] then s.length + 1 else pyCountGo pat s.length s

/-- Helper for `pyReplace` of an empty pattern: `new` is inserted after every
character (Python `s.replace(chr(0), ..)`-style behaviour for `old = ""`). -/
def interleaveNew (new : Str) : Str → Str
  | [] => []
  | c :: cs => c :: new ++ interleaveNew new cs

/-- Scanning loop of Python `s.replace(old, new)` for a non-empty pattern,
fuelled like `pyCountGo`. -/
def pyReplaceGo (old new : Str) : Nat → Str → Str
  | _, [] => []
  | 0, s => s
  | fuel + 1, c :: cs =>
    if old.isPrefixOf (c :: cs) then new ++ pyReplaceGo old new fuel ((c :: cs).drop old.length)
    else c :: pyReplaceGo old new fuel cs

/-- Python `s.replace(old, new)`: replace every non-overlapping occurrence,
scanning from the left. -/
def pyReplace (s old new : Str) : Str :=
  if old = [] then new ++ interleaveNew new s else pyReplaceGo old new s.length s

/-- Decimal digits of a natural number, as Python prints it. -/
def natChars (n : Nat) : Str := (Nat.repr n).data

/-- Python format `f-string` right alignment to width 6 with spaces
(both the `d`-format and the plain `>`-format used by the source). -/
def padLeft6 (s : Str) : Str := List.replicate (6 - s.length) ' ' ++ s

/-- utils.MAX_LINE_LENGTH. -/
def MAX_LINE_LENGTH : Nat := 10000

/-- utils.EMPTY_CONTENT_WARNING. -/
def EMPTY_CONTENT_WARNING : Str :=
  ("System reminder: File exists but has empty contents").data

/-- utils.check_empty_content: the sentinel warning for blank content.
Source: `if not content or content.strip() == ""`. -/
def check_empty_content (content : Str) : Option Str :=
  if content = [] ∨ pyStrip content = [] then some EMPTY_CONTENT_WARNING else none

/-- One line of utils.format_content_with_line_numbers: a short line gets a
right-aligned width-6 line number and a tab; a line longer than
MAX_LINE_LENGTH is emitted in chunks, the chunks after the first labelled
`lineNum.chunkIdx`. -/
def numberOneLine (lineNum : Nat) (line : Str) : List Str :=
  if line.length ≤ MAX_LINE_LENGTH then
    [padLeft6 (natChars lineNum) ++ '\t' :: line]
  else
    (List.range ((line.length + MAX_LINE_LENGTH - 1) / MAX_LINE_LENGTH)).map (fun ci =>
      if ci = 0 then
        padLeft6 (natChars lineNum) ++ '\t' :: ((line.drop (ci * MAX_LINE_LENGTH)).take MAX_LINE_LENGTH)
      else
        padLeft6 (natChars lineNum ++ '.' :: natChars ci) ++
          '\t' :: ((line.drop (ci * MAX_LINE_LENGTH)).take MAX_LINE_LENGTH))

/-- The enumerate loop of utils.format_content_with_line_numbers applied to a
list of lines (`line_num = i + start_line`). -/
def numberLines (startLine : Nat) : List Str → List Str
  | [] => []
  | l :: ls => numberOneLine startLine l ++ numberLines (startLine + 1) ls

/-- utils.format_content_with_line_numbers restricted to a list argument
(the only way the functions embedded here call it). -/
def format_content_with_line_numbers (lines : List Str) (startLine : Nat) : Str :=
  joinNl (numberLines startLine lines)

/-- Spec-side statement of a numbered listing, written from the claim's
words: each line prefixed with its line number (right-aligned to the fixed
width, separated by a tab), counting from the given start. Compared against
the embedded formatter in the read-after-write claim. -/
def claimNumbered : Nat → List Str → List Str
  | _, [] => []
  | n, l :: ls => (padLeft6 (natChars n) ++ '\t' :: l) :: claimNumbered (n + 1) ls

/-- FileData (utils.create_file_data / the protocol file-record layout). -/
structure FileData where
  content : List Str
  created_at : Str
  modified_at : Str
deriving DecidableEq, Repr

/-- utils.create_file_data: `created_at or now` for the creation timestamp. -/
def create_file_data (content : Str) (createdAt : Option Str) (now : Str) : FileData :=
  { content := splitNl content, created_at := createdAt.getD now, modified_at := now }

/-- utils.update_file_data: fresh content and modification time, the original
creation time kept. -/
def update_file_data (fd : FileData) (content : Str) (now : Str) : FileData :=
  { content := splitNl content, created_at := fd.created_at, modified_at := now }

/-- utils.file_data_to_string. -/
def file_data_to_string (fd : FileData) : Str := joinNl fd.content

/-- Error message of StateBackend.read / StoreBackend.read for a missing file. -/
def fileNotFoundMsg (p : Str) : Str :=
  ("Error: File '").data ++ p ++ ("' not found").data

/-- Error message of utils.format_read_response for an out-of-range offset. -/
def offsetExceedsMsg (offset total : Nat) : Str :=
  ("Error: Line offset ").data ++ natChars offset ++
    (" exceeds file length (").data ++ natChars total ++ (" lines)").data

/-- utils.format_read_response. -/
def format_read_response (fd : FileData) (offset limit : Nat) : Str :=
  let content := file_data_to_string fd
  match check_empty_content content with
  | some m => m
  | none =>
    let lines := pySplitlines content
    let endIdx := min (offset + limit) lines.length
    if lines.length ≤ offset then offsetExceedsMsg offset lines.length
    else format_content_with_line_numbers ((lines.drop offset).take (endIdx - offset)) (offset + 1)

/-- Error message of utils.perform_string_replacement: pattern not present. -/
def stringNotFoundMsg (old : Str) : Str :=
  ("Error: String not found in file: '").data ++ old ++ ("'").data

/-- Error message of utils.perform_string_replacement: several occurrences and
replace_all not set; it reports the exact occurrence count. -/
def multipleOccurrencesMsg (old : Str) (n : Nat) : Str :=
  ("Error: String '").data ++ old ++ ("' appears ").data ++ natChars n ++
    (" times in file. Use replace_all=True to replace all instances, or provide a more specific string with surrounding context.").data

/-- utils.perform_string_replacement: `.error` is the string the source
returns instead of a tuple. -/
def perform_string_replacement (content old_string new_string : Str)
    (replace_all : Bool) : Except Str (Str × Nat) :=
  let occurrences := pyCount content old_string
  if occurrences = 0 then .error (stringNotFoundMsg old_string)
  else if occurrences > 1 ∧ replace_all = false then
    .error (multipleOccurrencesMsg old_string occurrences)
  else .ok (pyReplace content old_string new_string, occurrences)

/-- Insertion-ordered association-list lookup (Python `dict.get`). -/
def alGet [DecidableEq κ] : List (κ × α) → κ → Option α
  | [], _ => none
  | (k, v) :: rest, key => if k = key then some v else alGet rest key

/-- Insertion-ordered association-list assignment (Python `d[k] = v`):
an existing key keeps its position, a new key is appended. -/
def alInsert [DecidableEq κ] : List (κ × α) → κ → α → List (κ × α)
  | [], key, v => [(key, v)]
  | (k, v') :: rest, key, v =>
    if k = key then (k, v) :: rest else (k, v') :: alInsert rest key v

/-- Python `d.update(delta)` (how the middleware merges a files_update delta
back into the session state). -/
def mergeDelta [DecidableEq κ] (files delta : List (κ × α)) : List (κ × α) :=
  delta.foldl (fun fs kv => alInsert fs kv.1 kv.2) files

/-- protocol.WriteResult. -/
structure WriteResult where
  error : Option Str := none
  path : Option Str := none
  files_update : Option (List (Str × FileData)) := none
deriving DecidableEq, Repr

/-- protocol.EditResult. -/
structure EditResult where
  error : Option Str := none
  path : Option Str := none
  files_update : Option (List (Str × FileData)) := none
  occurrences : Option Nat := none
deriving DecidableEq, Repr

/-- Already-exists message shared by StateBackend.write, StoreBackend.write
and FilesystemBackend.write. -/
def alreadyExistsMsg (p : Str) : Str :=
  ("Cannot write to ").data ++ p ++
    (" because it already exists. Read and then make an edit, or write to a new path.").data

namespace StateBackend

/-- StateBackend.read: the `files` mapping is the session state passed in by
the runtime. -/
def read (files : List (Str × FileData)) (file_path : Str) (offset limit : Nat) : Str :=
  match alGet files file_path with
  | none => fileNotFoundMsg file_path
  | some fd => format_read_response fd offset limit

/-- StateBackend.write. The mapping is threaded through explicitly to record
that the source never mutates it: every statement of the Python body either
reads `files` or builds a fresh record, so the returned state is the input
state, and the change travels only in `files_update`. -/
def write (files : List (Str × FileData)) (file_path content : Str) (now : Str) :
    WriteResult × List (Str × FileData) :=
  if (alGet files file_path).isSome then
    ({ error := some (alreadyExistsMsg file_path) }, files)
  else
    ({ path := some file_path,
       files_update := some [(file_path, create_file_data content none now)] }, files)

/-- StateBackend.edit, with the same explicit threading of the session
mapping as `StateBackend.write`. -/
def edit (files : List (Str × FileData)) (file_path old_string new_string : Str)
    (replace_all : Bool) (now : Str) : EditResult × List (Str × FileData) :=
  match alGet files file_path with
  | none => ({ error := some (fileNotFoundMsg file_path) }, files)
  | some fd =>
    match perform_string_replacement (file_data_to_string fd) old_string new_string replace_all with
    | .error e => ({ error := some e }, files)
    | .ok (newContent, occ) =>
      ({ path := some file_path,
         files_update := some [(file_path, update_file_data fd newContent now)],
         occurrences := some occ }, files)

end StateBackend

namespace StoreBackend

/-- StoreBackend.write within one namespace: the store is embedded as an
insertion-ordered mapping from key to FileData (store.get / store.put).
The value conversions of the source are identity maps on the three record
fields and are elided. -/
def write (store : List (Str × FileData)) (file_path content : Str) (now : Str) :
    WriteResult × List (Str × FileData) :=
  match alGet store file_path with
  | some _ => ({ error := some (alreadyExistsMsg file_path) }, store)
  | none =>
    ({ path := some file_path }, alInsert store file_path (create_file_data content none now))

/-- StoreBackend.edit. The typed store always holds well-formed records, so
the source's conversion guard (which raises on malformed items) is total here. -/
def edit (store : List (Str × FileData)) (file_path old_string new_string : Str)
    (replace_all : Bool) (now : Str) : EditResult × List (Str × FileData) :=
  match alGet store file_path with
  | none => ({ error := some (fileNotFoundMsg file_path) }, store)
  | some fd =>
    match perform_string_replacement (file_data_to_string fd) old_string new_string replace_all with
    | .error e => ({ error := some e }, store)
    | .ok (newContent, occ) =>
      ({ path := some file_path, occurrences := some occ },
       alInsert store file_path (update_file_data fd newContent now))

end StoreBackend

/-- Strict UTF-8 decoding with explicit fuel (one byte of input always
consumes fuel, and the fuel is set to the input length, so the fuel never
runs out on the defining call). Mirrors Python `bytes.decode("utf-8")`:
`none` is the UnicodeDecodeError case. -/
def decodeUtf8Go : Nat → List Nat → Option (List Char)
  | _, [] => some []
  | 0, _ :: _ => none
  | fuel + 1, b1 :: bs =>
    if b1 < 0x80 then (decodeUtf8Go fuel bs).map (fun cs => Char.ofNat b1 :: cs)
    else if b1 < 0xC2 then none
    else if b1 ≤ 0xDF then
      match bs with
      | b2 :: r =>
        if 0x80 ≤ b2 ∧ b2 ≤ 0xBF then
          (decodeUtf8Go fuel r).map (fun cs => Char.ofNat ((b1 - 0xC0) * 0x40 + (b2 - 0x80)) :: cs)
        else none
      | [] => none
    else if b1 ≤ 0xEF then
      match bs with
      | b2 :: b3 :: r =>
        if (if b1 = 0xE0 then 0xA0 else 0x80) ≤ b2 ∧ b2 ≤ (if b1 = 0xED then 0x9F else 0xBF) ∧
            0x80 ≤ b3 ∧ b3 ≤ 0xBF then
          (decodeUtf8Go fuel r).map (fun cs =>
            Char.ofNat ((b1 - 0xE0) * 0x1000 + (b2 - 0x80) * 0x40 + (b3 - 0x80)) :: cs)
        else none
      | _ => none
    else if b1 ≤ 0xF4 then
      match bs with
      | b2 :: b3 :: b4 :: r =>
        if (if b1 = 0xF0 then 0x90 else 0x80) ≤ b2 ∧ b2 ≤ (if b1 = 0xF4 then 0x8F else 0xBF) ∧
            0x80 ≤ b3 ∧ b3 ≤ 0xBF ∧ 0x80 ≤ b4 ∧ b4 ≤ 0xBF then
          (decodeUtf8Go fuel r).map (fun cs =>
            Char.ofNat ((b1 - 0xF0) * 0x40000 + (b2 - 0x80) * 0x1000 + (b3 - 0x80) * 0x40 + (b4 - 0x80)) :: cs)
        else none
      | _ => none
    else none

def decodeUtf8 (bs : Bytes) : Option Str := decodeUtf8Go bs.length bs

/-- protocol.FileOperationError. -/
inductive FileOperationError
  | file_not_found
  | permission_denied
  | is_directory
  | invalid_path
deriving DecidableEq, Repr

/-- protocol.FileUploadResponse. -/
structure FileUploadResponse where
  path : Str
  error : Option FileOperationError := none
deriving DecidableEq, Repr

/-- protocol.FileDownloadResponse. -/
structure FileDownloadResponse where
  path : Str
  content : Option Bytes := none
  error : Option FileOperationError := none
deriving DecidableEq, Repr

namespace StoreBackend

/-- Loop body of StoreBackend.upload_files. The source decodes each element
with no exception handling, so a decode failure propagates out of the whole
call (the `.error` case), abandoning the remaining elements; elements stored
before the failure stay stored, which is why the store is threaded even in
the error case. -/
def uploadGo (now : Str) : List (Str × FileData) → List FileUploadResponse →
    List (Str × Bytes) → Except Str (List FileUploadResponse) × List (Str × FileData)
  | store, acc, [] => (.ok acc, store)
  | store, acc, (p, content) :: rest =>
    match decodeUtf8 content with
    | none => (.error (("UnicodeDecodeError").data), store)
    | some contentStr =>
      uploadGo now (alInsert store p (create_file_data contentStr none now))
        (acc ++ [{ path := p }]) rest

/-- StoreBackend.upload_files. Note: it stores via create_file_data
unconditionally, with no existence check. -/
def upload_files (store : List (Str × FileData)) (files : List (Str × Bytes)) (now : Str) :
    Except Str (List FileUploadResponse) × List (Str × FileData) :=
  uploadGo now store [] files

end StoreBackend

namespace FilesystemBackend

/-- Python `str(path)` for an absolute path given by its segments. -/
def joinSlash : List Str → Str
  | [] => []
  | [l] => l
  | l :: ls => l ++ '/' :: joinSlash ls

def renderAbs (segs : List Str) : Str := '/' :: joinSlash segs

/-- Split on the path separator. -/
def splitSlash : Str → List Str
  | [] => [[]]
  | c :: cs =>
    if c = '/' then [] :: splitSlash cs
    else
      match splitSlash cs with
      | [] => [[c]]
      | l :: ls => (c :: l) :: ls

/-- PurePosixPath construction: empty and single-dot segments are dropped. -/
def segsOf (s : Str) : List Str :=
  (splitSlash s).filter (fun seg => !(seg.isEmpty || seg == ['.']))

/-- The lexical part of Path.resolve(): parent-directory segments pop the
last segment. Symbolic links are outside this model (the filesystem itself
is not part of the state the resolver consults). -/
def normSegs (segs : List Str) : List Str :=
  segs.foldl (fun acc seg => if seg == ("..").data then acc.dropLast else acc ++ [seg]) []

/-- FilesystemBackend._resolve_path, virtual_mode=True branch. The configured
root (`self.cwd`) is given by its absolute-path segments. Mirrors the source:
prepend the separator if missing, reject when ".." occurs anywhere in the
path string, reject when the (always separator-initial) string starts with
"~" — kept although unreachable, as in the source — then resolve under the
root and require containment (Path.relative_to succeeds exactly when the
root's segments are a prefix of the resolved segments). -/
def resolve_path (cwd : List Str) (key : Str) : Except Str (List Str) :=
  let vpath := if key.head? = some '/' then key else '/' :: key
  if ("..").data <:+: vpath then .error (("Path traversal not allowed").data)
  else if vpath.head? = some '~' then .error (("Path traversal not allowed").data)
  else
    let full := normSegs (cwd ++ segsOf (vpath.dropWhile (fun c => c = '/')))
    if cwd.isPrefixOf full then .ok full
    else .error (("Path:").data ++ renderAbs full ++ (" outside root directory: ").data ++ renderAbs cwd)

/-- FilesystemBackend.write (virtual mode), over a filesystem modelled as a
mapping from resolved absolute path to text content. A resolution failure
(ValueError in the source) propagates out of write, which only catches the
OS-level errors; parent-directory creation and the O_NOFOLLOW open flags act
on parts of the OS state outside this model and are elided. -/
def write (cwd : List Str) (fs : List (List Str × Str)) (file_path content : Str) :
    Except Str (WriteResult × List (List Str × Str)) :=
  match resolve_path cwd file_path with
  | .error e => .error e
  | .ok rp =>
    if (alGet fs rp).isSome then .ok ({ error := some (alreadyExistsMsg file_path) }, fs)
    else .ok ({ path := some file_path }, alInsert fs rp content)

end FilesystemBackend

/-- FileInfo (protocol.FileInfo with all optional fields present, as every
record built by the embedded code is). -/
structure FileInfo where
  path : Str
  is_dir : Bool
  size : Nat
  modified_at : Str
deriving DecidableEq, Repr

/-- Python string comparison (lexicographic by code point). -/
def pyStrLt : Str → Str → Bool
  | [], [] => false
  | [], _ :: _ => true
  | _ :: _, [] => false
  | a :: as, b :: bs =>
    if a.toNat < b.toNat then true
    else if b.toNat < a.toNat then false
    else pyStrLt as bs

def pyStrLe (a b : Str) : Bool := !(pyStrLt b a)

/-- One insertion step of a stable ascending sort by path (Python
list.sort(key=...path)). -/
def insertByPath (fi : FileInfo) : List FileInfo → List FileInfo
  | [] => [fi]
  | g :: gs => if pyStrLe fi.path g.path then fi :: g :: gs else g :: insertByPath fi gs

def sortByPath (l : List FileInfo) : List FileInfo := l.foldr insertByPath []

/-- Python `s.rstrip(chr(47))`: drop every trailing separator. -/
def rstripSlash (s : Str) : Str := (s.reverse.dropWhile (fun c => c = '/')).reverse

namespace CompositeBackend

/-- One insertion step of CompositeBackend.__init__'s
`sorted(routes.items(), key=len, reverse=True)`: stable descending sort by
route length (an element inserted later — i.e. earlier in the original
order — passes every strictly longer entry and stops before the first entry
of smaller or equal length). -/
def insertRouteDesc {β : Type} (p : Str × β) : List (Str × β) → List (Str × β)
  | [] => [p]
  | q :: qs => if q.1.length ≤ p.1.length then p :: q :: qs else q :: insertRouteDesc p qs

def sortRoutes {β : Type} (routes : List (Str × β)) : List (Str × β) :=
  routes.foldr insertRouteDesc []

/-- CompositeBackend._get_backend_and_key, scanning the pre-sorted routes:
first route whose prefix the key starts with wins; the stripped key keeps a
leading separator. The routed backends are abstract values of type β. -/
def get_backend_and_key {β : Type} (sortedRoutes : List (Str × β)) (default : β)
    (key : Str) : β × Str :=
  match sortedRoutes with
  | [] => (default, key)
  | (pre, b) :: rest =>
    if pre.isPrefixOf key then
      (b, if key.drop pre.length = [] then ['/'] else '/' :: key.drop pre.length)
    else get_backend_and_key rest default key

/-- The route-matching loop of CompositeBackend.ls_info: note it matches
against the route prefix with its trailing separators stripped
(`path.startswith(route_prefix.rstrip(chr(47)))`), while the suffix is cut at
the full prefix length. Returns none when no route matches. -/
def lsRoute {β : Type} (bls : β → Str → List FileInfo) :
    List (Str × β) → Str → Option (List FileInfo)
  | [], _ => none
  | (pre, b) :: rest, path =>
    if (rstripSlash pre).isPrefixOf path then
      some (((bls b (if path.drop pre.length = [] then ['/'] else '/' :: path.drop pre.length))).map
        (fun fi => { fi with path := pre.dropLast ++ fi.path }))
    else lsRoute bls rest path

/-- CompositeBackend.ls_info: a matching route is delegated to with the
prefix re-prepended to every returned path; the root aggregates the default
backend's listing with one synthetic directory per route; any other path goes
to the default backend. -/
def ls_info {β : Type} (sortedRoutes : List (Str × β)) (default : β)
    (bls : β → Str → List FileInfo) (path : Str) : List FileInfo :=
  match lsRoute bls sortedRoutes path with
  | some r => r
  | none =>
    if path = ['/'] then
      sortByPath (bls default path ++ sortedRoutes.map (fun q =>
        { path := q.1, is_dir := true, size := 0, modified_at := [] }))
    else bls default path

end CompositeBackend

/-- Python `defaultdict(list)` grouping step:
`backend_batches[b].append(x)` — an existing key keeps its position and its
batch grows at the end; a new key is appended. -/
def alAppendGroup {β ε : Type} [DecidableEq β] : List (β × List ε) → β → ε → List (β × List ε)
  | [], b, x => [(b, [x])]
  | (b', xs) :: rest, b, x =>
    if b' = b then (b', xs ++ [x]) :: rest else (b', xs) :: alAppendGroup rest b x

/-- The `for idx, elem in enumerate(..)` grouping loop shared by the
composite batch operations: `f` routes the element at index `k` to a backend
and builds the grouped entry. -/
def groupRouteAux {α β ε : Type} [DecidableEq β] (f : Nat → α → β × ε) :
    Nat → List (β × List ε) → List α → List (β × List ε)
  | _, acc, [] => acc
  | k, acc, a :: as => groupRouteAux f (k + 1) (alAppendGroup acc (f k a).1 (f k a).2) as

def groupRoute {α β ε : Type} [DecidableEq β] (f : Nat → α → β × ε) (as : List α) :
    List (β × List ε) :=
  groupRouteAux f 0 [] as

/-- Specification of a single backend's group: the entries of the elements
that route to it, in input order (used to state what the grouping loop
produces). -/
def routedFrom {α β ε : Type} [DecidableEq β] (f : Nat → α → β × ε) (b : β) :
    Nat → List α → List ε
  | _, [] => []
  | k, a :: as => (if (f k a).1 = b then [(f k a).2] else []) ++ routedFrom f b (k + 1) as

/-- The scatter loop of the composite batch operations:
`results[orig_idx] = mk orig_idx i` for the i-th entry of a batch
(`results` is the preallocated list of optional responses). -/
def scatterAssign {δ ρ : Type} (mk : Nat → Nat → ρ) :
    Nat → List (Option ρ) → List (Nat × δ) → List (Option ρ)
  | _, res, [] => res
  | i, res, e :: rest => scatterAssign mk (i + 1) (res.set e.1 (some (mk e.1 i))) rest

namespace CompositeBackend

/-- The batch-processing loop of CompositeBackend.upload_files: one backend
call per group (recorded in the trace), then the responses are scattered
back to the original indices carrying the original input path
(`files[orig_idx][0]`), with the response error taken positionally when
present. -/
def uploadAux {β : Type} (files : List (Str × Bytes))
    (bupload : β → List (Str × Bytes) → List FileUploadResponse) :
    List (β × List (Nat × Str × Bytes)) → List (Option FileUploadResponse) →
    List (β × List (Str × Bytes)) →
    List (Option FileUploadResponse) × List (β × List (Str × Bytes))
  | [], res, trace => (res, trace)
  | (b, batch) :: rest, res, trace =>
    let batchFiles := batch.map (fun e => (e.2.1, e.2.2))
    let responses := bupload b batchFiles
    uploadAux files bupload rest
      (scatterAssign (fun j i =>
        { path := (files.getD j ([], [])).1,
          error := (responses.getD i { path := [] }).error }) 0 res batch)
      (trace ++ [(b, batchFiles)])

/-- CompositeBackend.upload_files over abstract routed backends, returning
the preallocated/assigned result slots together with the trace of backend
invocations (one entry per underlying upload_files call). -/
def upload_files {β : Type} [DecidableEq β] (sortedRoutes : List (Str × β)) (default : β)
    (bupload : β → List (Str × Bytes) → List FileUploadResponse)
    (files : List (Str × Bytes)) :
    List (Option FileUploadResponse) × List (β × List (Str × Bytes)) :=
  uploadAux files bupload
    (groupRoute (fun k pc =>
      let r := get_backend_and_key sortedRoutes default pc.1
      (r.1, (k, r.2, pc.2))) files)
    (List.replicate files.length none) []

/-- The batch-processing loop of CompositeBackend.download_files. -/
def downloadAux {β : Type} (paths : List Str)
    (bdownload : β → List Str → List FileDownloadResponse) :
    List (β × List (Nat × Str)) → List (Option FileDownloadResponse) →
    List (β × List Str) →
    List (Option FileDownloadResponse) × List (β × List Str)
  | [], res, trace => (res, trace)
  | (b, batch) :: rest, res, trace =>
    let strippedPaths := batch.map (fun e => e.2)
    let responses := bdownload b strippedPaths
    downloadAux paths bdownload rest
      (scatterAssign (fun j i =>
        { path := paths.getD j [],
          content := (responses.getD i { path := [] }).content,
          error := (responses.getD i { path := [] }).error }) 0 res batch)
      (trace ++ [(b, strippedPaths)])

/-- CompositeBackend.download_files over abstract routed backends. -/
def download_files {β : Type} [DecidableEq β] (sortedRoutes : List (Str × β)) (default : β)
    (bdownload : β → List Str → List FileDownloadResponse)
    (paths : List Str) :
    List (Option FileDownloadResponse) × List (β × List Str) :=
  downloadAux paths bdownload
    (groupRoute (fun k p =>
      let r := get_backend_and_key sortedRoutes default p
      (r.1, (k, r.2))) paths)
    (List.replicate paths.length none) []

end CompositeBackend

/-- A family of probe backends for the routing theorems: backend b answers a
listing with one record whose size is b and whose modified_at echoes the
queried path, so the selected backend and search path are observable. -/
def routeProbeLs (b : Nat) (p : Str) : List FileInfo :=
  [{ path := ("/f").data, is_dir := false, size := b, modified_at := p }]

/-- Specification of one backend's upload group: the elements of the input
that route to it, stripped, in input order (what "the group of elements that
routed to it" of the batching claim denotes). -/
def uploadGroupOf {β : Type} [DecidableEq β] (sortedRoutes : List (Str × β)) (default : β)
    (b : β) (files : List (Str × Bytes)) : List (Str × Bytes) :=
  files.filterMap (fun pc =>
    if (CompositeBackend.get_backend_and_key sortedRoutes default pc.1).1 = b then
      some ((CompositeBackend.get_backend_and_key sortedRoutes default pc.1).2, pc.2)
    else none)

/-- Specification of one backend's download group. -/
def downloadGroupOf {β : Type} [DecidableEq β] (sortedRoutes : List (Str × β)) (default : β)
    (b : β) (paths : List Str) : List Str :=
  paths.filterMap (fun q =>
    if (CompositeBackend.get_backend_and_key sortedRoutes default q).1 = b then
      some (CompositeBackend.get_backend_and_key sortedRoutes default q).2
    else none)

/-- Common shape of the two batch-processing loops (uploadAux / downloadAux),
used to prove their shared properties once: for each group, build the
response maker and the trace entry, scatter, recurse. -/
def processBatches {β δ ρ χ : Type} (mkOf : β → List (Nat × δ) → Nat → Nat → ρ)
    (trOf : β → List (Nat × δ) → χ) :
    List (β × List (Nat × δ)) → List (Option ρ) → List χ → List (Option ρ) × List χ
  | [], res, trace => (res, trace)
  | (b, batch) :: rest, res, trace =>
    processBatches mkOf trOf rest (scatterAssign (mkOf b batch) 0 res batch)
      (trace ++ [trOf b batch])

theorem splitNl_ne_nil (s : Str) : splitNl s ≠ [] := by
  cases s with
  | nil => simp [splitNl]
  | cons c cs =>
    simp only [splitNl]
    split
    · simp
    · split <;> simp

theorem joinNl_splitNl (s : Str) : joinNl (splitNl s) = s := by
  induction s with
  | nil => rfl
  | cons c cs ih =>
    by_cases hc : c = '\n'
    · subst hc
      simp only [splitNl, if_pos rfl]
      cases h : splitNl cs with
      | nil => exact absurd h (splitNl_ne_nil cs)
      | cons l ls =>
        rw [h] at ih
        show joinNl ([] :: l :: ls) = '\n' :: cs
        calc joinNl ([] :: l :: ls) = [] ++ '\n' :: joinNl (l :: ls) := rfl
          _ = '\n' :: cs := by rw [ih]; rfl
    · simp only [splitNl, if_neg hc]
      cases h : splitNl cs with
      | nil => exact absurd h (splitNl_ne_nil cs)
      | cons l ls =>
        rw [h] at ih
        cases ls with
        | nil =>
          show joinNl [c :: l] = c :: cs
          have : joinNl [l] = l := rfl
          rw [this] at ih
          show c :: l = c :: cs
          rw [ih]
        | cons l2 ls2 =>
          show (c :: l) ++ '\n' :: joinNl (l2 :: ls2) = c :: cs
          have : joinNl (l :: l2 :: ls2) = l ++ '\n' :: joinNl (l2 :: ls2) := rfl
          rw [this] at ih
          simpa using ih

theorem pySplitlines_ne_nil (s : Str) (hs : s ≠ []) : pySplitlines s ≠ [] := by
  rw [pySplitlines.eq_def]
  split
  · exact absurd rfl hs
  · simp
  · split
    · simp
    · split <;> simp

theorem pySplitlines_eq_nil_iff (s : Str) : pySplitlines s = [] ↔ s = [] := by
  constructor
  · intro h
    by_contra hs
    exact pySplitlines_ne_nil s hs h
  · intro h; subst h; rfl

theorem alGet_alInsert_self [DecidableEq κ] (l : List (κ × α)) (k : κ) (v : α) :
    alGet (alInsert l k v) k = some v := by
  induction l with
  | nil => simp [alInsert, alGet]
  | cons kv rest ih =>
    obtain ⟨k0, v0⟩ := kv
    by_cases h : k0 = k
    · subst h; simp [alInsert, alGet]
    · simp [alInsert, alGet, h, ih]

theorem alGet_alInsert_ne [DecidableEq κ] (l : List (κ × α)) (k k' : κ) (v : α)
    (h : k' ≠ k) : alGet (alInsert l k v) k' = alGet l k' := by
  induction l with
  | nil => simp [alInsert, alGet, Ne.symm h]
  | cons kv rest ih =>
    obtain ⟨k0, v0⟩ := kv
    by_cases h0 : k0 = k
    · subst h0
      simp only [alInsert, if_pos rfl, alGet]
      rw [if_neg (Ne.symm h), if_neg (Ne.symm h)]
    · by_cases h1 : k0 = k'
      · subst h1; simp [alInsert, alGet, h0]
      · simp [alInsert, alGet, h0, h1, ih]

theorem mergeDelta_single [DecidableEq κ] (files : List (κ × α)) (k : κ) (v : α) :
    mergeDelta files [(k, v)] = alInsert files k v := rfl

/-- The stripped key built by the router is a leading separator followed by
the suffix, in both branches of the source conditional. -/
theorem stripIf_eq (x : Str) : (if x = [] then ['/'] else '/' :: x) = '/' :: x := by
  by_cases h : x = [] <;> simp [h]

/-- Claim C3 (code bug): the claim says sandboxed path resolution rejects any
path containing a parent-directory segment or a home-directory shorthand and
never returns a path outside the root; the code does reject ".." paths (as a
substring check) and "/a/../../etc/passwd" errors as required, but the "~"
check is dead: the path is made separator-initial before the
`vpath.startswith("~")` test, so a home-shorthand path such as "~/x" resolves
successfully (to a path named "~" under the root) instead of being rejected,
contradicting the resolver's own docstring. -/
theorem claim_C3 :
    FilesystemBackend.resolve_path [("sandbox").data] (("/a/../../etc/passwd").data) =
      .error (("Path traversal not allowed").data) ∧
    FilesystemBackend.resolve_path [("sandbox").data] (("~/x").data) =
      .ok [("sandbox").data, ("~").data, ("x").data] ∧
    FilesystemBackend.resolve_path [("sandbox").data] (("~").data) =
      .ok [("sandbox").data, ("~").data] :=
  ⟨rfl, rfl, rfl⟩

/-- Claim C7 (code bug): the claim says a failure affecting one element of a
batch upload never aborts the whole batch. StoreBackend.upload_files decodes
each element with no per-element error handling, so one undecodable element
(0xFF is not valid UTF-8) aborts the whole call with a UnicodeDecodeError:
no response list is produced, and the elements before the failure have
already been stored. -/
theorem claim_C7 :
    StoreBackend.upload_files []
        [((("/a.txt").data), [72, 105]), ((("/b.bin").data), [255])] (("T1").data) =
      (.error (("UnicodeDecodeError").data),
       [((("/a.txt").data), create_file_data (("Hi").data) none (("T1").data))]) ∧
    decodeUtf8 [255] = none :=
  ⟨rfl, rfl⟩

/-- Claim C9 (counterexample): a file whose content is a single space has
line count 1 ≤ offset 5, so the claim's second case demands an
offset-exceeds-length error; the code's blank-content check fires first and
returns the sentinel notice instead. -/
theorem claim_C9_counterexample :
    (pySplitlines (file_data_to_string
        { content := [(" ").data], created_at := ("T0").data, modified_at := ("T0").data })).length ≤ 5 ∧
    StateBackend.read [((("/w.txt").data),
        { content := [(" ").data], created_at := ("T0").data, modified_at := ("T0").data })]
        (("/w.txt").data) 5 2000 = EMPTY_CONTENT_WARNING ∧
    StateBackend.read [((("/w.txt").data),
        { content := [(" ").data], created_at := ("T0").data, modified_at := ("T0").data })]
        (("/w.txt").data) 5 2000 ≠
      offsetExceedsMsg 5 (pySplitlines (file_data_to_string
        { content := [(" ").data], created_at := ("T0").data, modified_at := ("T0").data })).length := by
  refine ⟨by decide, rfl, by decide⟩

/-- Claim C9 (as amended): read of a missing path gives the not-found error;
read of an existing file whose content is blank (empty or whitespace-only)
gives the fixed sentinel notice — which does not contain "Error" — at every
offset; read of an existing file with non-blank content whose total line
count is at most the offset gives the offset-exceeds-length error. -/
theorem claim_C9 (files : List (Str × FileData)) (p : Str) (offset limit : Nat) :
    (alGet files p = none → StateBackend.read files p offset limit = fileNotFoundMsg p) ∧
    (∀ fd, alGet files p = some fd →
      (file_data_to_string fd = [] ∨ pyStrip (file_data_to_string fd) = []) →
      StateBackend.read files p offset limit = EMPTY_CONTENT_WARNING) ∧
    (∀ fd, alGet files p = some fd →
      ¬(file_data_to_string fd = [] ∨ pyStrip (file_data_to_string fd) = []) →
      (pySplitlines (file_data_to_string fd)).length ≤ offset →
      StateBackend.read files p offset limit =
        offsetExceedsMsg offset (pySplitlines (file_data_to_string fd)).length) ∧
    ¬ (("Error").data <:+: EMPTY_CONTENT_WARNING) := by
  refine ⟨?_, ?_, ?_, by decide⟩
  · intro h
    simp [StateBackend.read, h]
  · intro fd h hblank
    simp only [StateBackend.read, h]
    simp only [format_read_response, check_empty_content, if_pos hblank]
  · intro fd h hblank hoff
    simp only [StateBackend.read, h]
    simp only [format_read_response, check_empty_content, if_neg hblank]
    simp only [if_pos hoff]

/-- Claim C9 witness: the amended theorem applied to a one-file mapping with
content "x" and line count 1 ≤ offset 5. -/
theorem claim_C9_witness :
    StateBackend.read [((("/a.txt").data),
        { content := [("x").data], created_at := ("T0").data, modified_at := ("T0").data })]
        (("/a.txt").data) 5 2000 =
      offsetExceedsMsg 5 (pySplitlines (file_data_to_string
        { content := [("x").data], created_at := ("T0").data, modified_at := ("T0").data })).length :=
  (claim_C9 [((("/a.txt").data),
      { content := [("x").data], created_at := ("T0").data, modified_at := ("T0").data })]
      (("/a.txt").data) 5 2000).2.2.1
    { content := [("x").data], created_at := ("T0").data, modified_at := ("T0").data }
    rfl (by decide) (by decide)

/-- Claim C5: StateBackend.edit on an existing file fails with the
string-not-found message when the pattern has zero occurrences; fails with a
message reporting the exact occurrence count (and instructing the caller to
disambiguate or set replace_all) when it occurs more than once and
replace_all is false; and otherwise replaces every occurrence (Python
str.replace semantics) and reports the occurrence count. -/
theorem claim_C5 (files : List (Str × FileData)) (p old new now : Str) (ra : Bool)
    (fd : FileData) (hfd : alGet files p = some fd) :
    (pyCount (file_data_to_string fd) old = 0 →
      StateBackend.edit files p old new ra now =
        ({ error := some (stringNotFoundMsg old) }, files)) ∧
    (1 < pyCount (file_data_to_string fd) old → ra = false →
      StateBackend.edit files p old new ra now =
        ({ error := some (multipleOccurrencesMsg old (pyCount (file_data_to_string fd) old)) },
         files)) ∧
    (0 < pyCount (file_data_to_string fd) old →
      (pyCount (file_data_to_string fd) old = 1 ∨ ra = true) →
      StateBackend.edit files p old new ra now =
        ({ path := some p,
           files_update := some [(p, update_file_data fd
             (pyReplace (file_data_to_string fd) old new) now)],
           occurrences := some (pyCount (file_data_to_string fd) old) }, files)) := by
  refine ⟨?_, ?_, ?_⟩
  · intro h0
    simp only [StateBackend.edit, hfd, perform_string_replacement, if_pos h0]
  · intro h1 hra
    have h0 : ¬ pyCount (file_data_to_string fd) old = 0 := by omega
    simp only [StateBackend.edit, hfd, perform_string_replacement, if_neg h0,
      if_pos (And.intro h1 hra)]
  · intro hpos hone
    have h0 : ¬ pyCount (file_data_to_string fd) old = 0 := by omega
    have h1 : ¬ (pyCount (file_data_to_string fd) old > 1 ∧ ra = false) := by
      rcases hone with h | h
      · intro hc; omega
      · intro hc; rw [h] at hc; exact absurd hc.2 (by simp)
    simp only [StateBackend.edit, hfd, perform_string_replacement, if_neg h0, if_neg h1]

/-- Claim C5 witness: editing "aba" with old "b", new "z", replace_all true
(one occurrence) succeeds with occurrence count 1. -/
theorem claim_C5_witness :
    StateBackend.edit [((("/f").data), create_file_data (("aba").data) none (("T0").data))]
        (("/f").data) (("b").data) (("z").data) true (("T1").data) =
      ({ path := some (("/f").data),
         files_update := some [((("/f").data), update_file_data
           (create_file_data (("aba").data) none (("T0").data))
           (pyReplace (file_data_to_string (create_file_data (("aba").data) none (("T0").data)))
             (("b").data) (("z").data)) (("T1").data))],
         occurrences := some (pyCount
           (file_data_to_string (create_file_data (("aba").data) none (("T0").data)))
           (("b").data)) },
       [((("/f").data), create_file_data (("aba").data) none (("T0").data))]) :=
  (claim_C5 [((("/f").data), create_file_data (("aba").data) none (("T0").data))]
      (("/f").data) (("b").data) (("z").data) (("T1").data) true
      (create_file_data (("aba").data) none (("T0").data)) rfl).2.2
    (by decide) (Or.inl (by decide))

theorem perform_string_replacement_ok (c o n : Str) (ra : Bool) (s : Str) (k : Nat)
    (h : perform_string_replacement c o n ra = .ok (s, k)) :
    s = pyReplace c o n ∧ k = pyCount c o := by
  simp only [perform_string_replacement] at h
  split at h
  · exact absurd h (by simp)
  · split at h
    · exact absurd h (by simp)
    · simp only [Except.ok.injEq, Prod.mk.injEq] at h
      exact ⟨h.1.symm, h.2.symm⟩

/-- Claim C10: the in-memory backend's write and edit return the supplied
session mapping unchanged (the embedding threads the mapping through exactly
as the Python body uses it, and no statement of either method assigns into
it), and the change is carried solely by the files_update delta: merging the
delta produces the new record at the written path and touches no other key. -/
theorem claim_C10 (files : List (Str × FileData)) (p c now old new : Str) (ra : Bool) :
    (StateBackend.write files p c now).2 = files ∧
    (StateBackend.edit files p old new ra now).2 = files ∧
    (∀ upd, (StateBackend.write files p c now).1.files_update = some upd →
      alGet (mergeDelta files upd) p = some (create_file_data c none now) ∧
      ∀ q, q ≠ p → alGet (mergeDelta files upd) q = alGet files q) ∧
    (∀ fd upd, alGet files p = some fd →
      (StateBackend.edit files p old new ra now).1.files_update = some upd →
      alGet (mergeDelta files upd) p =
        some (update_file_data fd (pyReplace (file_data_to_string fd) old new) now) ∧
      ∀ q, q ≠ p → alGet (mergeDelta files upd) q = alGet files q) := by
  refine ⟨?_, ?_, ?_, ?_⟩
  · simp only [StateBackend.write]
    split <;> rfl
  · cases halg : alGet files p with
    | none => simp [StateBackend.edit, halg]
    | some fd =>
      cases hr : perform_string_replacement (file_data_to_string fd) old new ra with
      | error e => simp [StateBackend.edit, halg, hr]
      | ok pr =>
        obtain ⟨s, k⟩ := pr
        simp [StateBackend.edit, halg, hr]
  · intro upd hupd
    by_cases hex : (alGet files p).isSome
    · simp [StateBackend.write, hex] at hupd
    · simp only [StateBackend.write, Bool.not_eq_true] at hupd
      rw [if_neg hex] at hupd
      replace hupd : [(p, create_file_data c none now)] = upd := by simpa using hupd
      rw [← hupd, mergeDelta_single]
      exact ⟨alGet_alInsert_self _ _ _, fun q hq => alGet_alInsert_ne _ _ _ _ hq⟩
  · intro fd upd hfd hupd
    simp only [StateBackend.edit, hfd] at hupd
    cases hr : perform_string_replacement (file_data_to_string fd) old new ra with
    | error e => rw [hr] at hupd; simp at hupd
    | ok pr =>
      obtain ⟨s, k⟩ := pr
      obtain ⟨hs, hk⟩ := perform_string_replacement_ok _ _ _ _ _ _ hr
      rw [hr] at hupd
      replace hupd : [(p, update_file_data fd s now)] = upd := by simpa using hupd
      rw [← hupd, ← hs, mergeDelta_single]
      exact ⟨alGet_alInsert_self _ _ _, fun q hq => alGet_alInsert_ne _ _ _ _ hq⟩

/-- Claim C10 witness: the write part of the theorem at a concrete mapping. -/
theorem claim_C10_witness :
    alGet (mergeDelta ([] : List (Str × FileData))
        [((("/n").data), create_file_data (("hi").data) none (("T").data))]) (("/n").data) =
      some (create_file_data (("hi").data) none (("T").data)) :=
  ((claim_C10 [] (("/n").data) (("hi").data) (("T").data) [] [] false).2.2.1
    [((("/n").data), create_file_data (("hi").data) none (("T").data))] rfl).1

/-- Claim C6: on each of the three write-capable backends, write only ever
creates new files: a write to an existing path fails with the already-exists
error and leaves the stored mapping unchanged, and after a successful write
(with its delta merged, for the in-memory backend) a second write to the same
path always fails and changes nothing. -/
theorem claim_C6 :
    (∀ (files : List (Str × FileData)) (p c2 now : Str), (alGet files p).isSome →
      StateBackend.write files p c2 now = ({ error := some (alreadyExistsMsg p) }, files)) ∧
    (∀ (files : List (Str × FileData)) (p c1 c2 n1 n2 : Str), alGet files p = none →
      (StateBackend.write files p c1 n1).1.error = none ∧
      alGet (mergeDelta files ((StateBackend.write files p c1 n1).1.files_update.getD [])) p =
        some (create_file_data c1 none n1) ∧
      StateBackend.write
          (mergeDelta files ((StateBackend.write files p c1 n1).1.files_update.getD [])) p c2 n2 =
        ({ error := some (alreadyExistsMsg p) },
         mergeDelta files ((StateBackend.write files p c1 n1).1.files_update.getD []))) ∧
    (∀ (store : List (Str × FileData)) (p c2 now : Str), (alGet store p).isSome →
      StoreBackend.write store p c2 now = ({ error := some (alreadyExistsMsg p) }, store)) ∧
    (∀ (store : List (Str × FileData)) (p c1 c2 n1 n2 : Str), alGet store p = none →
      (StoreBackend.write store p c1 n1).1.error = none ∧
      alGet (StoreBackend.write store p c1 n1).2 p = some (create_file_data c1 none n1) ∧
      StoreBackend.write (StoreBackend.write store p c1 n1).2 p c2 n2 =
        ({ error := some (alreadyExistsMsg p) }, (StoreBackend.write store p c1 n1).2)) ∧
    (∀ (cwd : List Str) (fs : List (List Str × Str)) (p c2 : Str) (rp : List Str),
      FilesystemBackend.resolve_path cwd p = .ok rp → (alGet fs rp).isSome →
      FilesystemBackend.write cwd fs p c2 = .ok ({ error := some (alreadyExistsMsg p) }, fs)) ∧
    (∀ (cwd : List Str) (fs : List (List Str × Str)) (p c1 c2 : Str) (rp : List Str),
      FilesystemBackend.resolve_path cwd p = .ok rp → alGet fs rp = none →
      FilesystemBackend.write cwd fs p c1 = .ok ({ path := some p }, alInsert fs rp c1) ∧
      FilesystemBackend.write cwd (alInsert fs rp c1) p c2 =
        .ok ({ error := some (alreadyExistsMsg p) }, alInsert fs rp c1)) := by
  refine ⟨?_, ?_, ?_, ?_, ?_, ?_⟩
  · intro files p c2 now h
    simp [StateBackend.write, h]
  · intro files p c1 c2 n1 n2 h
    have h' : ¬ (alGet files p).isSome = true := by simp [h]
    have hupd : (StateBackend.write files p c1 n1).1.files_update.getD [] =
        [(p, create_file_data c1 none n1)] := by
      simp only [StateBackend.write]
      rw [if_neg h']
      rfl
    refine ⟨?_, ?_, ?_⟩
    · simp only [StateBackend.write]
      rw [if_neg h']
    · rw [hupd, mergeDelta_single]
      exact alGet_alInsert_self _ _ _
    · rw [hupd, mergeDelta_single]
      have hm : (alGet (alInsert files p (create_file_data c1 none n1)) p).isSome = true := by
        rw [alGet_alInsert_self]; rfl
      simp [StateBackend.write, hm]
  · intro store p c2 now h
    rw [Option.isSome_iff_exists] at h
    obtain ⟨fd, hfd⟩ := h
    simp [StoreBackend.write, hfd]
  · intro store p c1 c2 n1 n2 h
    have hsnd : (StoreBackend.write store p c1 n1).2 =
        alInsert store p (create_file_data c1 none n1) := by
      simp [StoreBackend.write, h]
    refine ⟨by simp [StoreBackend.write, h], ?_, ?_⟩
    · rw [hsnd]; exact alGet_alInsert_self _ _ _
    · rw [hsnd]
      simp [StoreBackend.write, alGet_alInsert_self]
  · intro cwd fs p c2 rp hres h
    simp [FilesystemBackend.write, hres, h]
  · intro cwd fs p c1 c2 rp hres h
    have h' : ¬ (alGet fs rp).isSome = true := by simp [h]
    constructor
    · simp only [FilesystemBackend.write, hres]
      rw [if_neg h']
    · have hm : (alGet (alInsert fs rp c1) rp).isSome = true := by
        rw [alGet_alInsert_self]; rfl
      simp [FilesystemBackend.write, hres, hm]

/-- Claim C6 witness: the in-memory part of the theorem at a concrete
mapping already holding the path. -/
theorem claim_C6_witness :
    StateBackend.write [((("/x").data), create_file_data (("a").data) none (("T").data))]
        (("/x").data) (("b").data) (("U").data) =
      ({ error := some (alreadyExistsMsg (("/x").data)) },
       [((("/x").data), create_file_data (("a").data) none (("T").data))]) :=
  claim_C6.1 [((("/x").data), create_file_data (("a").data) none (("T").data))]
    (("/x").data) (("b").data) (("U").data) rfl

/-- Claim C8 (counterexample): the store already holds a record at the path
with creation time "T0"; StoreBackend.upload_files stores a freshly created
record (no existence check, create_file_data rather than update_file_data),
so after the upload the stored record's created_at is the upload time "T1",
not "T0" — an operation after creation changed created_at. -/
theorem claim_C8_counterexample :
    alGet ([((("/n.txt").data),
        { content := [("old").data], created_at := ("T0").data, modified_at := ("T0").data })] :
        List (Str × FileData))
      (("/n.txt").data) =
      some { content := [("old").data], created_at := ("T0").data, modified_at := ("T0").data } ∧
    (StoreBackend.upload_files [((("/n.txt").data),
        { content := [("old").data], created_at := ("T0").data, modified_at := ("T0").data })]
        [((("/n.txt").data), [110, 101, 119])] (("T1").data)).2 =
      [((("/n.txt").data), create_file_data (("new").data) none (("T1").data))] ∧
    (create_file_data (("new").data) none (("T1").data)).created_at = ("T1").data ∧
    ("T1").data ≠ ("T0").data :=
  ⟨rfl, rfl, rfl, by decide⟩

/-- Claim C8 (as amended): created_at is never changed by write or edit —
write refuses existing paths and edit preserves the stored created_at — and
modified_at is set to the operation time by every successful write or edit;
StoreBackend.upload_files, however, replaces an existing record with a
freshly created one, resetting created_at to the upload time. -/
theorem claim_C8 :
    (∀ (files : List (Str × FileData)) (p c now : Str), alGet files p = none →
      (StateBackend.write files p c now).1.files_update =
        some [(p, create_file_data c none now)] ∧
      (create_file_data c none now).created_at = now ∧
      (create_file_data c none now).modified_at = now) ∧
    (∀ (fd : FileData) (content now : Str),
      (update_file_data fd content now).created_at = fd.created_at ∧
      (update_file_data fd content now).modified_at = now) ∧
    (∀ (files : List (Str × FileData)) (p old new now : Str) (ra : Bool) fd upd,
      alGet files p = some fd →
      (StateBackend.edit files p old new ra now).1.files_update = some upd →
      upd = [(p, update_file_data fd (pyReplace (file_data_to_string fd) old new) now)]) ∧
    (∀ (store : List (Str × FileData)) (p old new now : Str) (ra : Bool) fd,
      alGet store p = some fd →
      0 < pyCount (file_data_to_string fd) old →
      (pyCount (file_data_to_string fd) old = 1 ∨ ra = true) →
      alGet (StoreBackend.edit store p old new ra now).2 p =
        some (update_file_data fd (pyReplace (file_data_to_string fd) old new) now)) ∧
    (∀ (store : List (Str × FileData)) (p now : Str) (bs : Bytes) (s : Str) fd,
      alGet store p = some fd → decodeUtf8 bs = some s →
      alGet (StoreBackend.upload_files store [(p, bs)] now).2 p =
        some (create_file_data s none now)) := by
  refine ⟨?_, ?_, ?_, ?_, ?_⟩
  · intro files p c now h
    have h' : ¬ (alGet files p).isSome = true := by simp [h]
    refine ⟨?_, rfl, rfl⟩
    simp only [StateBackend.write]
    rw [if_neg h']
  · intro fd content now
    exact ⟨rfl, rfl⟩
  · intro files p old new now ra fd upd hfd hupd
    simp only [StateBackend.edit, hfd] at hupd
    cases hr : perform_string_replacement (file_data_to_string fd) old new ra with
    | error e => rw [hr] at hupd; simp at hupd
    | ok pr =>
      obtain ⟨s, k⟩ := pr
      obtain ⟨hs, _⟩ := perform_string_replacement_ok _ _ _ _ _ _ hr
      rw [hr] at hupd
      replace hupd : [(p, update_file_data fd s now)] = upd := by simpa using hupd
      rw [← hupd, hs]
  · intro store p old new now ra fd hfd hpos hone
    have h0 : ¬ pyCount (file_data_to_string fd) old = 0 := by omega
    have h1 : ¬ (pyCount (file_data_to_string fd) old > 1 ∧ ra = false) := by
      rcases hone with h | h
      · intro hc; omega
      · intro hc; rw [h] at hc; exact absurd hc.2 (by simp)
    simp only [StoreBackend.edit, hfd, perform_string_replacement, if_neg h0, if_neg h1]
    exact alGet_alInsert_self _ _ _
  · intro store p now bs s fd hfd hdec
    simp only [StoreBackend.upload_files, StoreBackend.uploadGo, hdec]
    exact alGet_alInsert_self _ _ _

/-- Claim C8 witness: the upload part of the theorem at the concrete store of
the counterexample's shape. -/
theorem claim_C8_witness :
    alGet (StoreBackend.upload_files [((("/m.txt").data),
        { content := [("old").data], created_at := ("T0").data, modified_at := ("T0").data })]
        [((("/m.txt").data), [110, 101, 119])] (("T1").data)).2 (("/m.txt").data) =
      some (create_file_data (("new").data) none (("T1").data)) :=
  claim_C8.2.2.2.2 [((("/m.txt").data),
      { content := [("old").data], created_at := ("T0").data, modified_at := ("T0").data })]
    (("/m.txt").data) (("T1").data) [110, 101, 119] (("new").data)
    { content := [("old").data], created_at := ("T0").data, modified_at := ("T0").data }
    rfl rfl

theorem numberLines_eq_claimNumbered (ls : List Str) (k : Nat)
    (h : ∀ l ∈ ls, l.length ≤ MAX_LINE_LENGTH) :
    numberLines k ls = claimNumbered k ls := by
  induction ls generalizing k with
  | nil => rfl
  | cons l ls ih =>
    have hl : l.length ≤ MAX_LINE_LENGTH := h l (by simp)
    simp only [numberLines, claimNumbered, numberOneLine, if_pos hl]
    rw [ih (k + 1) (fun x hx => h x (by simp [hx]))]
    rfl

/-- Claim C4 (counterexample): writing the empty content succeeds, but
reading it back returns the blank-content sentinel notice, not the empty
content split into numbered lines (under either reading of "split into
lines": splitlines of the empty string is no lines, split on the newline
character is one empty line). -/
theorem claim_C4_counterexample :
    (StateBackend.write [] (("/e.txt").data) [] (("T1").data)).1.error = none ∧
    StateBackend.read (mergeDelta []
        ((StateBackend.write [] (("/e.txt").data) [] (("T1").data)).1.files_update.getD []))
        (("/e.txt").data) 0 2000 = EMPTY_CONTENT_WARNING ∧
    EMPTY_CONTENT_WARNING ≠ format_content_with_line_numbers (pySplitlines []) 1 ∧
    EMPTY_CONTENT_WARNING ≠ format_content_with_line_numbers (splitNl []) 1 := by
  refine ⟨rfl, rfl, by decide, by decide⟩

/-- Claim C4 (as amended): for a path not yet present and a content string
that is not blank (nonempty after stripping whitespace), whose lines are at
most MAX_LINE_LENGTH characters, write followed by read (offset 0, limit at
least the line count) returns exactly the content's lines (Python splitlines
sense), each prefixed with its right-aligned width-6 line number starting
from 1 and a tab separator. -/
theorem claim_C4 (files : List (Str × FileData)) (p c now : Str) (limit : Nat)
    (hnew : alGet files p = none)
    (hblank : ¬(c = [] ∨ pyStrip c = []))
    (hshort : ∀ l ∈ pySplitlines c, l.length ≤ MAX_LINE_LENGTH)
    (hlimit : (pySplitlines c).length ≤ limit) :
    (StateBackend.write files p c now).1.error = none ∧
    StateBackend.read (mergeDelta files
        ((StateBackend.write files p c now).1.files_update.getD [])) p 0 limit =
      joinNl (claimNumbered 1 (pySplitlines c)) := by
  have h' : ¬ (alGet files p).isSome = true := by simp [hnew]
  constructor
  · simp only [StateBackend.write]
    rw [if_neg h']
  · have hupd : (StateBackend.write files p c now).1.files_update.getD [] =
        [(p, create_file_data c none now)] := by
      simp only [StateBackend.write]
      rw [if_neg h']
      rfl
    rw [hupd, mergeDelta_single]
    simp only [StateBackend.read, alGet_alInsert_self]
    have hcontent : file_data_to_string (create_file_data c none now) = c := by
      simp only [file_data_to_string, create_file_data]
      exact joinNl_splitNl c
    simp only [format_read_response, hcontent, check_empty_content, if_neg hblank]
    have hne : pySplitlines c ≠ [] :=
      pySplitlines_ne_nil c (fun hc => hblank (Or.inl hc))
    have hpos : 0 < (pySplitlines c).length := List.length_pos.mpr hne
    rw [if_neg (by omega)]
    have hmin : min (0 + limit) (pySplitlines c).length = (pySplitlines c).length := by
      omega
    rw [List.drop_zero, hmin, Nat.sub_zero, List.take_length]
    simp only [format_content_with_line_numbers]
    rw [numberLines_eq_claimNumbered _ _ hshort]

/-- Claim C4 witness: write then read of a two-line content. -/
theorem claim_C4_witness :
    StateBackend.read (mergeDelta []
        ((StateBackend.write [] (("/d.txt").data) (("hi\nthere").data) (("T").data)).1.files_update.getD []))
        (("/d.txt").data) 0 2000 =
      joinNl (claimNumbered 1 (pySplitlines (("hi\nthere").data))) :=
  (claim_C4 [] (("/d.txt").data) (("hi\nthere").data) (("T").data) 2000
    rfl (by decide) (by decide) (by decide)).2

theorem mem_insertRouteDesc {β : Type} (p x : Str × β) (l : List (Str × β)) :
    x ∈ CompositeBackend.insertRouteDesc p l ↔ x = p ∨ x ∈ l := by
  induction l with
  | nil => simp [CompositeBackend.insertRouteDesc]
  | cons q qs ih =>
    simp only [CompositeBackend.insertRouteDesc]
    split
    · simp [List.mem_cons]
    · simp only [List.mem_cons, ih]
      tauto

theorem perm_insertRouteDesc {β : Type} (p : Str × β) (l : List (Str × β)) :
    List.Perm (CompositeBackend.insertRouteDesc p l) (p :: l) := by
  induction l with
  | nil => rfl
  | cons q qs ih =>
    simp only [CompositeBackend.insertRouteDesc]
    split
    · rfl
    · exact (List.Perm.cons q ih).trans (List.Perm.swap p q qs)

theorem perm_sortRoutes {β : Type} (routes : List (Str × β)) :
    List.Perm (CompositeBackend.sortRoutes routes) routes := by
  induction routes with
  | nil => rfl
  | cons q qs ih =>
    exact (perm_insertRouteDesc q (CompositeBackend.sortRoutes qs)).trans (List.Perm.cons q ih)

theorem mem_sortRoutes {β : Type} (x : Str × β) (routes : List (Str × β)) :
    x ∈ CompositeBackend.sortRoutes routes ↔ x ∈ routes :=
  (perm_sortRoutes routes).mem_iff

theorem sorted_insertRouteDesc {β : Type} (p : Str × β) (l : List (Str × β))
    (h : l.Pairwise (fun a b : Str × β => b.1.length ≤ a.1.length)) :
    (CompositeBackend.insertRouteDesc p l).Pairwise
      (fun a b : Str × β => b.1.length ≤ a.1.length) := by
  induction l with
  | nil => simp [CompositeBackend.insertRouteDesc]
  | cons q qs ih =>
    obtain ⟨hq, hqs⟩ := List.pairwise_cons.mp h
    simp only [CompositeBackend.insertRouteDesc]
    split
    · rename_i hle
      refine List.pairwise_cons.mpr ⟨?_, h⟩
      intro b hb
      rcases List.mem_cons.mp hb with rfl | hb'
      · exact hle
      · exact le_trans (hq b hb') hle
    · rename_i hgt
      push_neg at hgt
      refine List.pairwise_cons.mpr ⟨?_, ih hqs⟩
      intro b hb
      rcases (mem_insertRouteDesc p b qs).mp hb with rfl | hb'
      · exact le_of_lt hgt
      · exact hq b hb'

theorem sorted_sortRoutes {β : Type} (routes : List (Str × β)) :
    (CompositeBackend.sortRoutes routes).Pairwise
      (fun a b : Str × β => b.1.length ≤ a.1.length) := by
  induction routes with
  | nil => simp [CompositeBackend.sortRoutes]
  | cons q qs ih => exact sorted_insertRouteDesc q _ ih

theorem prefix_eq_of_length_eq {p1 p2 key : Str} (h1 : p1 <+: key) (h2 : p2 <+: key)
    (hlen : p1.length = p2.length) : p1 = p2 :=
  (List.prefix_of_prefix_length_le h1 h2 (le_of_eq hlen)).eq_of_length hlen

theorem gbk_match {β : Type} (l : List (Str × β)) (default : β) (key : Str) (q : Str × β)
    (hsorted : l.Pairwise (fun a b : Str × β => b.1.length ≤ a.1.length))
    (hnodup : (l.map Prod.fst).Nodup)
    (hq : q ∈ l) (hmatch : q.1.isPrefixOf key = true)
    (hmax : ∀ r ∈ l, r.1.isPrefixOf key = true → r.1.length ≤ q.1.length) :
    CompositeBackend.get_backend_and_key l default key = (q.2, '/' :: key.drop q.1.length) := by
  induction l with
  | nil => cases hq
  | cons hd tl ih =>
    obtain ⟨pre, b⟩ := hd
    by_cases hhd : pre.isPrefixOf key = true
    · have hqhd : q = (pre, b) := by
        rcases List.mem_cons.mp hq with rfl | htl
        · rfl
        · exfalso
          have h1 : q.1.length ≤ pre.length := (List.pairwise_cons.mp hsorted).1 q htl
          have h2 : pre.length ≤ q.1.length := hmax (pre, b) (by simp) hhd
          have heq : q.1 = pre := prefix_eq_of_length_eq
            (List.isPrefixOf_iff_prefix.mp hmatch) (List.isPrefixOf_iff_prefix.mp hhd)
            (by omega)
          have hmem : pre ∈ tl.map Prod.fst := List.mem_map.mpr ⟨q, htl, heq⟩
          exact (List.nodup_cons.mp hnodup).1 hmem
      simp only [CompositeBackend.get_backend_and_key, if_pos hhd, stripIf_eq, hqhd]
    · have hqtl : q ∈ tl := by
        rcases List.mem_cons.mp hq with rfl | htl
        · exact absurd hmatch hhd
        · exact htl
      have hres := ih (List.pairwise_cons.mp hsorted).2 (List.nodup_cons.mp hnodup).2 hqtl
        (fun r hr hrm => hmax r (List.mem_cons.mpr (Or.inr hr)) hrm)
      simpa only [CompositeBackend.get_backend_and_key, if_neg hhd] using hres

theorem gbk_nomatch {β : Type} (l : List (Str × β)) (default : β) (key : Str)
    (h : ∀ r ∈ l, ¬ r.1.isPrefixOf key = true) :
    CompositeBackend.get_backend_and_key l default key = (default, key) := by
  induction l with
  | nil => rfl
  | cons hd tl ih =>
    obtain ⟨pre, b⟩ := hd
    simp only [CompositeBackend.get_backend_and_key, if_neg (h (pre, b) (by simp))]
    exact ih (fun r hr => h r (List.mem_cons.mpr (Or.inr hr)))

theorem lsRoute_match {β : Type} (bls : β → Str → List FileInfo) (l : List (Str × β))
    (path : Str) (q : Str × β)
    (hsorted : l.Pairwise (fun a b : Str × β => b.1.length ≤ a.1.length))
    (hnodup : (l.map Prod.fst).Nodup)
    (hslash : ∀ r ∈ l, rstripSlash r.1 ++ ['/'] = r.1)
    (hq : q ∈ l) (hmatch : (rstripSlash q.1).isPrefixOf path = true)
    (hmax : ∀ r ∈ l, (rstripSlash r.1).isPrefixOf path = true → r.1.length ≤ q.1.length) :
    CompositeBackend.lsRoute bls l path =
      some ((bls q.2 (if path.drop q.1.length = [] then ['/'] else '/' :: path.drop q.1.length)).map
        (fun fi => { fi with path := q.1.dropLast ++ fi.path })) := by
  induction l with
  | nil => cases hq
  | cons hd tl ih =>
    obtain ⟨pre, b⟩ := hd
    by_cases hhd : (rstripSlash pre).isPrefixOf path = true
    · have hqhd : q = (pre, b) := by
        rcases List.mem_cons.mp hq with rfl | htl
        · rfl
        · exfalso
          have h1 : q.1.length ≤ pre.length := (List.pairwise_cons.mp hsorted).1 q htl
          have h2 : pre.length ≤ q.1.length := hmax (pre, b) (by simp) hhd
          have hsq : rstripSlash q.1 ++ ['/'] = q.1 := hslash q (List.mem_cons.mpr (Or.inr htl))
          have hsp : rstripSlash pre ++ ['/'] = pre := hslash (pre, b) (by simp)
          have hlen : (rstripSlash q.1).length = (rstripSlash pre).length := by
            have lq := congrArg List.length hsq
            have lp := congrArg List.length hsp
            simp only [List.length_append, List.length_cons, List.length_nil] at lq lp
            omega
          have hreq : rstripSlash q.1 = rstripSlash pre := prefix_eq_of_length_eq
            (List.isPrefixOf_iff_prefix.mp hmatch) (List.isPrefixOf_iff_prefix.mp hhd) hlen
          have heq : q.1 = pre := by rw [← hsq, ← hsp, hreq]
          have hmem : pre ∈ tl.map Prod.fst := List.mem_map.mpr ⟨q, htl, heq⟩
          exact (List.nodup_cons.mp hnodup).1 hmem
      simp only [CompositeBackend.lsRoute, if_pos hhd, hqhd]
    · have hqtl : q ∈ tl := by
        rcases List.mem_cons.mp hq with rfl | htl
        · exact absurd hmatch hhd
        · exact htl
      have hres := ih (List.pairwise_cons.mp hsorted).2 (List.nodup_cons.mp hnodup).2
        (fun r hr => hslash r (List.mem_cons.mpr (Or.inr hr))) hqtl
        (fun r hr hrm => hmax r (List.mem_cons.mpr (Or.inr hr)) hrm)
      simpa only [CompositeBackend.lsRoute, if_neg hhd] using hres

theorem lsRoute_nomatch {β : Type} (bls : β → Str → List FileInfo) (l : List (Str × β))
    (path : Str) (h : ∀ r ∈ l, ¬ (rstripSlash r.1).isPrefixOf path = true) :
    CompositeBackend.lsRoute bls l path = none := by
  induction l with
  | nil => rfl
  | cons hd tl ih =>
    obtain ⟨pre, b⟩ := hd
    simp only [CompositeBackend.lsRoute, if_neg (h (pre, b) (by simp))]
    exact ih (fun r hr => h r (List.mem_cons.mpr (Or.inr hr)))

/-- Claim C1 (counterexample): with the single route "/memories/", the path
"/memoriesx" starts with no route prefix, so the claim requires delegation to
the default backend; CompositeBackend.ls_info instead matches the route
(its comparison strips the trailing separator from the prefix first) and
delegates to the routed backend with search path "/". -/
theorem claim_C1_counterexample :
    ¬ ((("/memories/").data).isPrefixOf (("/memoriesx").data) = true) ∧
    CompositeBackend.ls_info (CompositeBackend.sortRoutes [((("/memories/").data), 1)]) 0
        routeProbeLs (("/memoriesx").data) ≠ routeProbeLs 0 (("/memoriesx").data) ∧
    CompositeBackend.ls_info (CompositeBackend.sortRoutes [((("/memories/").data), 1)]) 0
        routeProbeLs (("/memoriesx").data) =
      (routeProbeLs 1 (("/").data)).map
        (fun fi => { fi with path := (("/memories/").data).dropLast ++ fi.path }) := by
  refine ⟨by decide, by decide, rfl⟩

/-- Claim C1 (as amended): for route prefixes ending in exactly one
separator with no duplicate prefixes — the routes dict — the single-path
router (_get_backend_and_key, used by read/write/edit) behaves exactly as
claimed: the routed backend with the longest prefix the path starts with is
selected, the path is delegated with the prefix stripped preserving a leading
separator, and a path matching no route prefix goes to the default backend.
ls_info differs only in its match test, which strips the trailing separator
from the prefix, so the selected route is the longest one whose
separator-stripped prefix the path starts with (hence e.g. "/memoriesx" is
routed, not defaulted); on a route match it delegates to the routed backend
and re-prepends the prefix to every returned path, and a path matching no
route this way (other than the root) goes to the default backend. -/
theorem claim_C1 {β : Type} (routes : List (Str × β)) (default : β)
    (bls : β → Str → List FileInfo) (p : Str)
    (hnodup : (routes.map Prod.fst).Nodup)
    (hslash : ∀ q ∈ routes, rstripSlash q.1 ++ ['/'] = q.1) :
    ((∀ q ∈ routes, ¬ q.1.isPrefixOf p = true) →
      CompositeBackend.get_backend_and_key (CompositeBackend.sortRoutes routes) default p =
        (default, p)) ∧
    (∀ q ∈ routes, q.1.isPrefixOf p = true →
      (∀ r ∈ routes, r.1.isPrefixOf p = true → r.1.length ≤ q.1.length) →
      CompositeBackend.get_backend_and_key (CompositeBackend.sortRoutes routes) default p =
        (q.2, '/' :: p.drop q.1.length)) ∧
    (∀ q ∈ routes, (rstripSlash q.1).isPrefixOf p = true →
      (∀ r ∈ routes, (rstripSlash r.1).isPrefixOf p = true → r.1.length ≤ q.1.length) →
      CompositeBackend.ls_info (CompositeBackend.sortRoutes routes) default bls p =
        (bls q.2 ('/' :: p.drop q.1.length)).map
          (fun fi => { fi with path := q.1.dropLast ++ fi.path })) ∧
    ((∀ q ∈ routes, ¬ (rstripSlash q.1).isPrefixOf p = true) → p ≠ ['/'] →
      CompositeBackend.ls_info (CompositeBackend.sortRoutes routes) default bls p =
        bls default p) := by
  have hnodup' : ((CompositeBackend.sortRoutes routes).map Prod.fst).Nodup :=
    (((perm_sortRoutes routes).map Prod.fst).nodup_iff).mpr hnodup
  have hsorted := sorted_sortRoutes routes
  refine ⟨?_, ?_, ?_, ?_⟩
  · intro h
    exact gbk_nomatch _ default p (fun r hr => h r ((mem_sortRoutes r routes).mp hr))
  · intro q hq hmatch hmax
    exact gbk_match _ default p q hsorted hnodup' ((mem_sortRoutes q routes).mpr hq) hmatch
      (fun r hr hrm => hmax r ((mem_sortRoutes r routes).mp hr) hrm)
  · intro q hq hmatch hmax
    have hls := lsRoute_match bls _ p q hsorted hnodup'
      (fun r hr => hslash r ((mem_sortRoutes r routes).mp hr))
      ((mem_sortRoutes q routes).mpr hq) hmatch
      (fun r hr hrm => hmax r ((mem_sortRoutes r routes).mp hr) hrm)
    simp only [CompositeBackend.ls_info, hls, stripIf_eq]
  · intro h hp
    have hls := lsRoute_nomatch bls (CompositeBackend.sortRoutes routes) p
      (fun r hr => h r ((mem_sortRoutes r routes).mp hr))
    simp only [CompositeBackend.ls_info, hls, if_neg hp]

/-- Claim C1 witness: with routes "/memories/" and "/m/", the path
"/memories/x.txt" is routed to the "/memories/" backend with the stripped key
"/x.txt". -/
theorem claim_C1_witness :
    CompositeBackend.get_backend_and_key
        (CompositeBackend.sortRoutes [((("/memories/").data), 1), ((("/m/").data), 2)]) 0
        (("/memories/x.txt").data) = (1, ("/x.txt").data) :=
  (claim_C1 [((("/memories/").data), 1), ((("/m/").data), 2)] 0 routeProbeLs
      (("/memories/x.txt").data) (by decide) (by decide)).2.1
    ((("/memories/").data), 1) (by decide) (by decide) (by decide)


theorem alGet_eq_none_iff {κ : Type} {α : Type} [DecidableEq κ] (l : List (κ × α)) (k : κ) :
    alGet l k = none ↔ k ∉ l.map Prod.fst := by
  induction l with
  | nil => simp [alGet]
  | cons hd tl ih =>
    obtain ⟨k0, v0⟩ := hd
    by_cases h : k0 = k
    · subst h; simp [alGet]
    · simp [alGet, h, ih, Ne.symm h]

theorem alGet_of_mem_nodup {κ : Type} {α : Type} [DecidableEq κ] (l : List (κ × α))
    (k : κ) (v : α) (hnd : (l.map Prod.fst).Nodup) (hm : (k, v) ∈ l) :
    alGet l k = some v := by
  induction l with
  | nil => cases hm
  | cons hd tl ih =>
    obtain ⟨k0, v0⟩ := hd
    rcases List.mem_cons.mp hm with heq | htl
    · injection heq with hk hv
      subst hk
      subst hv
      simp [alGet]
    · have hne : k0 ≠ k := by
        intro hc
        subst hc
        have : k0 ∈ tl.map Prod.fst := List.mem_map.mpr ⟨(k0, v), htl, rfl⟩
        exact (List.nodup_cons.mp hnd).1 this
      simp only [alGet, if_neg hne]
      exact ih (List.nodup_cons.mp hnd).2 htl

theorem mem_of_alGet_some {κ : Type} {α : Type} [DecidableEq κ] (l : List (κ × α))
    (k : κ) (v : α) (h : alGet l k = some v) : (k, v) ∈ l := by
  induction l with
  | nil => simp [alGet] at h
  | cons hd tl ih =>
    obtain ⟨k0, v0⟩ := hd
    by_cases h0 : k0 = k
    · subst h0
      simp [alGet] at h
      exact List.mem_cons.mpr (Or.inl (by rw [← h]))
    · simp only [alGet, if_neg h0] at h
      exact List.mem_cons.mpr (Or.inr (ih h))

theorem alGet_alAppendGroup {β ε : Type} [DecidableEq β]
    (acc : List (β × List ε)) (b : β) (x : ε) (b' : β) :
    alGet (alAppendGroup acc b x) b' =
      if b' = b then some ((alGet acc b).getD [] ++ [x]) else alGet acc b' := by
  induction acc with
  | nil =>
    by_cases h : b' = b
    · subst h; simp [alAppendGroup, alGet]
    · simp [alAppendGroup, alGet, h, Ne.symm h]
  | cons hd tl ih =>
    obtain ⟨b0, xs⟩ := hd
    by_cases h0 : b0 = b
    · subst h0
      simp only [alAppendGroup, if_pos rfl]
      by_cases h : b' = b0
      · subst h
        simp [alGet]
      · simp [alGet, h, Ne.symm h]
    · simp only [alAppendGroup, if_neg h0]
      by_cases h1 : b0 = b'
      · subst h1
        rw [if_neg h0]
        simp [alGet]
      · simp only [alGet, if_neg h1, ih]
        by_cases h2 : b' = b
        · subst h2
          simp [alGet, h0]
        · simp [alGet, h1, h2]

theorem keys_alAppendGroup {β ε : Type} [DecidableEq β]
    (acc : List (β × List ε)) (b : β) (x : ε) :
    (alAppendGroup acc b x).map Prod.fst =
      if (alGet acc b).isSome then acc.map Prod.fst else acc.map Prod.fst ++ [b] := by
  induction acc with
  | nil => simp [alAppendGroup, alGet]
  | cons hd tl ih =>
    obtain ⟨b0, xs⟩ := hd
    by_cases h0 : b0 = b
    · subst h0
      simp [alAppendGroup, alGet]
    · simp only [alAppendGroup, if_neg h0, List.map_cons, ih, alGet, if_neg h0]
      split <;> simp

theorem nodup_keys_alAppendGroup {β ε : Type} [DecidableEq β]
    (acc : List (β × List ε)) (b : β) (x : ε)
    (h : (acc.map Prod.fst).Nodup) : ((alAppendGroup acc b x).map Prod.fst).Nodup := by
  rw [keys_alAppendGroup]
  split
  · exact h
  · rename_i hnone
    have hb : b ∉ acc.map Prod.fst := by
      rw [← alGet_eq_none_iff]
      cases halc : alGet acc b
      · rfl
      · rw [halc] at hnone; simp at hnone
    simp only [List.nodup_append, List.nodup_cons, List.nodup_nil]
    exact ⟨h, by simp, by
      intro a ha hb'
      rcases List.mem_singleton.mp hb' with rfl
      exact hb ha⟩

theorem nodup_keys_groupRouteAux {α β ε : Type} [DecidableEq β] (f : Nat → α → β × ε) :
    ∀ (fs : List α) (k : Nat) (acc : List (β × List ε)),
    (acc.map Prod.fst).Nodup → ((groupRouteAux f k acc fs).map Prod.fst).Nodup := by
  intro fs
  induction fs with
  | nil => intro k acc h; exact h
  | cons a as ih =>
    intro k acc h
    exact ih (k + 1) _ (nodup_keys_alAppendGroup acc (f k a).1 (f k a).2 h)

theorem routedFrom_cons_self {α β ε : Type} [DecidableEq β] (f : Nat → α → β × ε)
    (a : α) (as : List α) (k : Nat) :
    routedFrom f (f k a).1 k (a :: as) = (f k a).2 :: routedFrom f (f k a).1 (k + 1) as := by
  simp [routedFrom]

theorem routedFrom_cons_other {α β ε : Type} [DecidableEq β] (f : Nat → α → β × ε)
    (a : α) (as : List α) (k : Nat) (b : β) (h : (f k a).1 ≠ b) :
    routedFrom f b k (a :: as) = routedFrom f b (k + 1) as := by
  simp [routedFrom, h]

theorem alGet_groupRouteAux {α β ε : Type} [DecidableEq β] (f : Nat → α → β × ε) :
    ∀ (fs : List α) (k : Nat) (acc : List (β × List ε)) (b : β),
    alGet (groupRouteAux f k acc fs) b =
      match alGet acc b with
      | some g => some (g ++ routedFrom f b k fs)
      | none =>
        if (routedFrom f b k fs).isEmpty then none else some (routedFrom f b k fs) := by
  intro fs
  induction fs with
  | nil =>
    intro k acc b
    simp only [groupRouteAux, routedFrom]
    cases alGet acc b <;> simp
  | cons a as ih =>
    intro k acc b
    simp only [groupRouteAux]
    rw [ih, alGet_alAppendGroup]
    by_cases hb : b = (f k a).1
    · subst hb
      rw [if_pos rfl, routedFrom_cons_self]
      cases halc : alGet acc (f k a).1 <;> simp [halc]
    · rw [if_neg hb, routedFrom_cons_other f a as k b (fun hc => hb hc.symm)]

theorem routedFrom_mem {α β ε : Type} [DecidableEq β] (f : Nat → α → β × ε) :
    ∀ (fs : List α) (k i : Nat) (hi : i < fs.length),
    (f (k + i) fs[i]).2 ∈ routedFrom f ((f (k + i) fs[i]).1) k fs := by
  intro fs
  induction fs with
  | nil => intro k i hi; cases hi
  | cons a as ih =>
    intro k i hi
    cases i with
    | zero =>
      simp only [Nat.add_zero, List.getElem_cons_zero]
      rw [routedFrom_cons_self]
      exact List.mem_cons_self _ _
    | succ i =>
      have hi' : i < as.length := by simpa using hi
      have := ih (k + 1) i hi'
      have harith : k + (i + 1) = (k + 1) + i := by omega
      simp only [List.getElem_cons_succ, harith]
      by_cases hb : (f ((k + 1) + i) as[i]).1 = (f k a).1
      · rw [hb, routedFrom_cons_self]
        exact List.mem_cons_of_mem _ (hb ▸ this)
      · rw [routedFrom_cons_other f a as k _ (fun hc => hb hc.symm)]
        exact this

theorem routedFrom_fst_bound {α β δ : Type} [DecidableEq β] (f : Nat → α → β × (Nat × δ))
    (hfst : ∀ (k : Nat) (a : α), (f k a).2.1 = k) (b : β) :
    ∀ (fs : List α) (k : Nat) (e : Nat × δ), e ∈ routedFrom f b k fs →
      k ≤ e.1 ∧ e.1 < k + fs.length := by
  intro fs
  induction fs with
  | nil => intro k e he; cases he
  | cons a as ih =>
    intro k e he
    simp only [routedFrom] at he
    rcases List.mem_append.mp he with h1 | h2
    · split at h1
      · rcases List.mem_singleton.mp h1 with rfl
        rw [hfst]
        simp
      · cases h1
    · have := ih (k + 1) e h2
      constructor <;> [omega; (simp only [List.length_cons]; omega)]

theorem getD_set_none {ρ : Type} (l : List (Option ρ)) (a : Nat) (v : Option ρ) (j : Nat) :
    (l.set a v).getD j none = if a = j ∧ a < l.length then v else l.getD j none := by
  induction l generalizing a j with
  | nil => simp
  | cons hd tl ih =>
    cases a with
    | zero =>
      cases j with
      | zero => simp
      | succ j => simp
    | succ a =>
      cases j with
      | zero => simp
      | succ j =>
        simp only [List.set_cons_succ, List.getD_cons_succ, ih, List.length_cons]
        by_cases h : a = j ∧ a < tl.length
        · rw [if_pos h, if_pos (by omega)]
        · rw [if_neg h, if_neg (by omega)]

theorem getD_replicate_none {ρ : Type} (n j : Nat) :
    (List.replicate n (none : Option ρ)).getD j none = none := by
  induction n generalizing j with
  | zero => simp
  | succ n ih =>
    cases j with
    | zero => simp [List.replicate]
    | succ j => simp [List.replicate, ih]

theorem scatterAssign_length {δ ρ : Type} (mk : Nat → Nat → ρ) :
    ∀ (entries : List (Nat × δ)) (i : Nat) (res : List (Option ρ)),
    (scatterAssign mk i res entries).length = res.length := by
  intro entries
  induction entries with
  | nil => intro i res; rfl
  | cons e rest ih =>
    intro i res
    simp only [scatterAssign, ih, List.length_set]

theorem scatterAssign_prop {δ ρ : Type} (mk : Nat → Nat → ρ) (P : Nat → ρ → Prop)
    (hP : ∀ j i, P j (mk j i)) :
    ∀ (entries : List (Nat × δ)) (i : Nat) (res : List (Option ρ)),
    (∀ j r, res.getD j none = some r → P j r) →
    ∀ j r, (scatterAssign mk i res entries).getD j none = some r → P j r := by
  intro entries
  induction entries with
  | nil => intro i res hres; exact hres
  | cons e rest ih =>
    intro i res hres
    refine ih (i + 1) _ ?_
    intro j r hr
    rw [getD_set_none] at hr
    by_cases hc : e.1 = j ∧ e.1 < res.length
    · rw [if_pos hc] at hr
      injection hr with hr'
      rw [← hr', ← hc.1]
      exact hP e.1 i
    · rw [if_neg hc] at hr
      exact hres j r hr

theorem scatterAssign_isSome_mono {δ ρ : Type} (mk : Nat → Nat → ρ) :
    ∀ (entries : List (Nat × δ)) (i : Nat) (res : List (Option ρ)) (j : Nat),
    (res.getD j none).isSome = true →
    ((scatterAssign mk i res entries).getD j none).isSome = true := by
  intro entries
  induction entries with
  | nil => intro i res j h; exact h
  | cons e rest ih =>
    intro i res j h
    refine ih (i + 1) _ j ?_
    rw [getD_set_none]
    by_cases hc : e.1 = j ∧ e.1 < res.length
    · rw [if_pos hc]; rfl
    · rw [if_neg hc]; exact h

theorem scatterAssign_covers {δ ρ : Type} (mk : Nat → Nat → ρ) :
    ∀ (entries : List (Nat × δ)) (i : Nat) (res : List (Option ρ)) (e : Nat × δ),
    e ∈ entries → e.1 < res.length →
    ((scatterAssign mk i res entries).getD e.1 none).isSome = true := by
  intro entries
  induction entries with
  | nil => intro i res e he; cases he
  | cons e0 rest ih =>
    intro i res e he hlen
    rcases List.mem_cons.mp he with rfl | htl
    · simp only [scatterAssign]
      refine scatterAssign_isSome_mono mk rest (i + 1) _ e.1 ?_
      rw [getD_set_none, if_pos ⟨rfl, hlen⟩]
      rfl
    · simp only [scatterAssign]
      exact ih (i + 1) _ e htl (by rw [List.length_set]; exact hlen)

theorem processBatches_snd {β δ ρ χ : Type} (mkOf : β → List (Nat × δ) → Nat → Nat → ρ)
    (trOf : β → List (Nat × δ) → χ) :
    ∀ (groups : List (β × List (Nat × δ))) (res : List (Option ρ)) (trace : List χ),
    (processBatches mkOf trOf groups res trace).2 =
      trace ++ groups.map (fun g => trOf g.1 g.2) := by
  intro groups
  induction groups with
  | nil => intro res trace; simp [processBatches]
  | cons g rest ih =>
    intro res trace
    obtain ⟨b, batch⟩ := g
    simp only [processBatches, ih, List.map_cons]
    simp

theorem processBatches_fst_length {β δ ρ χ : Type} (mkOf : β → List (Nat × δ) → Nat → Nat → ρ)
    (trOf : β → List (Nat × δ) → χ) :
    ∀ (groups : List (β × List (Nat × δ))) (res : List (Option ρ)) (trace : List χ),
    (processBatches mkOf trOf groups res trace).1.length = res.length := by
  intro groups
  induction groups with
  | nil => intro res trace; rfl
  | cons g rest ih =>
    intro res trace
    obtain ⟨b, batch⟩ := g
    simp only [processBatches, ih, scatterAssign_length]

theorem processBatches_prop {β δ ρ χ : Type} (mkOf : β → List (Nat × δ) → Nat → Nat → ρ)
    (trOf : β → List (Nat × δ) → χ) (P : Nat → ρ → Prop)
    (hP : ∀ b batch j i, P j (mkOf b batch j i)) :
    ∀ (groups : List (β × List (Nat × δ))) (res : List (Option ρ)) (trace : List χ),
    (∀ j r, res.getD j none = some r → P j r) →
    ∀ j r, (processBatches mkOf trOf groups res trace).1.getD j none = some r → P j r := by
  intro groups
  induction groups with
  | nil => intro res trace hres; exact hres
  | cons g rest ih =>
    intro res trace hres
    obtain ⟨b, batch⟩ := g
    exact ih _ _ (scatterAssign_prop (mkOf b batch) P (hP b batch) batch 0 res hres)

theorem processBatches_isSome_mono {β δ ρ χ : Type}
    (mkOf : β → List (Nat × δ) → Nat → Nat → ρ) (trOf : β → List (Nat × δ) → χ) :
    ∀ (groups : List (β × List (Nat × δ))) (res : List (Option ρ)) (trace : List χ) (j : Nat),
    (res.getD j none).isSome = true →
    ((processBatches mkOf trOf groups res trace).1.getD j none).isSome = true := by
  intro groups
  induction groups with
  | nil => intro res trace j h; exact h
  | cons g rest ih =>
    intro res trace j h
    obtain ⟨b, batch⟩ := g
    exact ih _ _ j (scatterAssign_isSome_mono (mkOf b batch) batch 0 res j h)

theorem processBatches_covers {β δ ρ χ : Type}
    (mkOf : β → List (Nat × δ) → Nat → Nat → ρ) (trOf : β → List (Nat × δ) → χ) :
    ∀ (groups : List (β × List (Nat × δ))) (res : List (Option ρ)) (trace : List χ)
      (b : β) (batch : List (Nat × δ)) (e : Nat × δ),
    (b, batch) ∈ groups → e ∈ batch → e.1 < res.length →
    ((processBatches mkOf trOf groups res trace).1.getD e.1 none).isSome = true := by
  intro groups
  induction groups with
  | nil => intro res trace b batch e hg; cases hg
  | cons g rest ih =>
    intro res trace b batch e hg he hlen
    obtain ⟨b0, batch0⟩ := g
    rcases List.mem_cons.mp hg with heq | htl
    · injection heq with hb hbatch
      subst hbatch
      simp only [processBatches]
      exact processBatches_isSome_mono mkOf trOf rest _ _ e.1
        (scatterAssign_covers (mkOf b0 batch) batch 0 res e he hlen)
    · simp only [processBatches]
      exact ih _ _ b batch e htl he (by rw [scatterAssign_length]; exact hlen)

theorem alGet_groupRoute {α β ε : Type} [DecidableEq β] (f : Nat → α → β × ε)
    (as : List α) (b : β) :
    alGet (groupRoute f as) b =
      if (routedFrom f b 0 as).isEmpty then none else some (routedFrom f b 0 as) := by
  simp only [groupRoute, alGet_groupRouteAux]
  rfl

theorem nodup_keys_groupRoute {α β ε : Type} [DecidableEq β] (f : Nat → α → β × ε)
    (as : List α) : ((groupRoute f as).map Prod.fst).Nodup :=
  nodup_keys_groupRouteAux f as 0 [] (by simp)

theorem groups_batch_eq {α β ε : Type} [DecidableEq β] (f : Nat → α → β × ε)
    (as : List α) (b : β) (batch : List ε) (h : (b, batch) ∈ groupRoute f as) :
    batch = routedFrom f b 0 as := by
  have hget := alGet_of_mem_nodup (groupRoute f as) b batch (nodup_keys_groupRoute f as) h
  rw [alGet_groupRoute] at hget
  by_cases he : (routedFrom f b 0 as).isEmpty
  · rw [if_pos he] at hget; cases hget
  · rw [if_neg he] at hget
    injection hget with hget'
    exact hget'.symm

theorem groups_mem_of_routed {α β ε : Type} [DecidableEq β] (f : Nat → α → β × ε)
    (as : List α) (b : β) (hne : ¬ (routedFrom f b 0 as).isEmpty = true) :
    (b, routedFrom f b 0 as) ∈ groupRoute f as := by
  apply mem_of_alGet_some
  rw [alGet_groupRoute, if_neg hne]

theorem uploadAux_eq_processBatches {β : Type} (files : List (Str × Bytes))
    (bupload : β → List (Str × Bytes) → List FileUploadResponse) :
    ∀ (groups : List (β × List (Nat × Str × Bytes)))
      (res : List (Option FileUploadResponse)) (trace : List (β × List (Str × Bytes))),
    CompositeBackend.uploadAux files bupload groups res trace =
      processBatches
        (fun b batch j i =>
          { path := (files.getD j ([], [])).1,
            error := ((bupload b (batch.map (fun e => (e.2.1, e.2.2)))).getD i
              { path := [] }).error })
        (fun b batch => (b, batch.map (fun e => (e.2.1, e.2.2))))
        groups res trace := by
  intro groups
  induction groups with
  | nil => intro res trace; rfl
  | cons g rest ih =>
    intro res trace
    obtain ⟨b, batch⟩ := g
    simp only [CompositeBackend.uploadAux, processBatches]
    exact ih _ _

theorem downloadAux_eq_processBatches {β : Type} (paths : List Str)
    (bdownload : β → List Str → List FileDownloadResponse) :
    ∀ (groups : List (β × List (Nat × Str)))
      (res : List (Option FileDownloadResponse)) (trace : List (β × List Str)),
    CompositeBackend.downloadAux paths bdownload groups res trace =
      processBatches
        (fun b batch j i =>
          { path := paths.getD j [],
            content := ((bdownload b (batch.map (fun e => e.2))).getD i { path := [] }).content,
            error := ((bdownload b (batch.map (fun e => e.2))).getD i { path := [] }).error })
        (fun b batch => (b, batch.map (fun e => e.2)))
        groups res trace := by
  intro groups
  induction groups with
  | nil => intro res trace; rfl
  | cons g rest ih =>
    intro res trace
    obtain ⟨b, batch⟩ := g
    simp only [CompositeBackend.downloadAux, processBatches]
    exact ih _ _

theorem routedFrom_upload_map {β : Type} [DecidableEq β] (sortedRoutes : List (Str × β))
    (default : β) (b : β) :
    ∀ (fs : List (Str × Bytes)) (k : Nat),
    (routedFrom (fun k pc =>
        ((CompositeBackend.get_backend_and_key sortedRoutes default pc.1).1,
         (k, (CompositeBackend.get_backend_and_key sortedRoutes default pc.1).2, pc.2)))
        b k fs).map (fun e => (e.2.1, e.2.2)) =
      uploadGroupOf sortedRoutes default b fs := by
  intro fs
  induction fs with
  | nil => intro k; rfl
  | cons pc fs ih =>
    intro k
    simp only [routedFrom, uploadGroupOf, List.filterMap_cons, List.map_append]
    by_cases h : (CompositeBackend.get_backend_and_key sortedRoutes default pc.1).1 = b
    · rw [if_pos h, if_pos h]
      simp only [List.map_cons, List.map_nil, List.singleton_append]
      rw [ih (k + 1)]
      rfl
    · rw [if_neg h, if_neg h]
      simp only [List.map_nil, List.nil_append]
      rw [ih (k + 1)]
      rfl

theorem routedFrom_download_map {β : Type} [DecidableEq β] (sortedRoutes : List (Str × β))
    (default : β) (b : β) :
    ∀ (ps : List Str) (k : Nat),
    (routedFrom (fun k q =>
        ((CompositeBackend.get_backend_and_key sortedRoutes default q).1,
         (k, (CompositeBackend.get_backend_and_key sortedRoutes default q).2)))
        b k ps).map (fun e => e.2) =
      downloadGroupOf sortedRoutes default b ps := by
  intro ps
  induction ps with
  | nil => intro k; rfl
  | cons q ps ih =>
    intro k
    simp only [routedFrom, downloadGroupOf, List.filterMap_cons, List.map_append]
    by_cases h : (CompositeBackend.get_backend_and_key sortedRoutes default q).1 = b
    · rw [if_pos h, if_pos h]
      simp only [List.map_cons, List.map_nil, List.singleton_append]
      rw [ih (k + 1)]
      rfl
    · rw [if_neg h, if_neg h]
      simp only [List.map_nil, List.nil_append]
      rw [ih (k + 1)]
      rfl

theorem upload_files_spec {β : Type} [DecidableEq β] (sortedRoutes : List (Str × β))
    (default : β) (bupload : β → List (Str × Bytes) → List FileUploadResponse)
    (files : List (Str × Bytes)) :
    (CompositeBackend.upload_files sortedRoutes default bupload files).1.length = files.length ∧
    (∀ i, i < files.length →
      ∃ resp, (CompositeBackend.upload_files sortedRoutes default bupload files).1.getD i none =
          some resp ∧ resp.path = (files.getD i ([], [])).1) ∧
    ((CompositeBackend.upload_files sortedRoutes default bupload files).2.map Prod.fst).Nodup ∧
    (∀ b tbf, (b, tbf) ∈ (CompositeBackend.upload_files sortedRoutes default bupload files).2 →
      tbf = uploadGroupOf sortedRoutes default b files) ∧
    (∀ pc ∈ files, ∃ tbf,
      ((CompositeBackend.get_backend_and_key sortedRoutes default pc.1).1, tbf) ∈
        (CompositeBackend.upload_files sortedRoutes default bupload files).2) := by
  have hdef : CompositeBackend.upload_files sortedRoutes default bupload files =
      processBatches
        (fun b batch j i =>
          { path := (files.getD j ([], [])).1,
            error := ((bupload b (batch.map (fun e => (e.2.1, e.2.2)))).getD i
              { path := [] }).error })
        (fun b batch => (b, batch.map (fun e => (e.2.1, e.2.2))))
        (groupRoute (fun k pc =>
          ((CompositeBackend.get_backend_and_key sortedRoutes default pc.1).1,
           (k, (CompositeBackend.get_backend_and_key sortedRoutes default pc.1).2, pc.2))) files)
        (List.replicate files.length none) [] :=
    uploadAux_eq_processBatches files bupload _ _ _
  refine ⟨?_, ?_, ?_, ?_, ?_⟩
  · rw [hdef, processBatches_fst_length, List.length_replicate]
  · intro i hi
    have hmem0 := routedFrom_mem (fun k pc =>
      ((CompositeBackend.get_backend_and_key sortedRoutes default pc.1).1,
       (k, (CompositeBackend.get_backend_and_key sortedRoutes default pc.1).2, pc.2)))
      files 0 i hi
    simp only [Nat.zero_add] at hmem0
    have hne : ¬ (routedFrom (fun k pc =>
        ((CompositeBackend.get_backend_and_key sortedRoutes default pc.1).1,
         (k, (CompositeBackend.get_backend_and_key sortedRoutes default pc.1).2, pc.2)))
        ((CompositeBackend.get_backend_and_key sortedRoutes default files[i].1).1)
        0 files).isEmpty = true := by
      intro hc
      rw [List.isEmpty_iff] at hc
      rw [hc] at hmem0
      cases hmem0
    have hgmem := groups_mem_of_routed (fun k pc =>
      ((CompositeBackend.get_backend_and_key sortedRoutes default pc.1).1,
       (k, (CompositeBackend.get_backend_and_key sortedRoutes default pc.1).2, pc.2)))
      files _ hne
    have hcover := processBatches_covers
      (fun b batch j i =>
        ({ path := (files.getD j ([], [])).1,
           error := ((bupload b (batch.map (fun e => (e.2.1, e.2.2)))).getD i
             { path := [] }).error } : FileUploadResponse))
      (fun b batch => (b, batch.map (fun e => (e.2.1, e.2.2))))
      _ (List.replicate files.length none) [] _ _ _ hgmem hmem0
      (by rw [List.length_replicate]; exact hi)
    rw [hdef]
    obtain ⟨resp, hresp⟩ := Option.isSome_iff_exists.mp hcover
    refine ⟨resp, hresp, ?_⟩
    exact processBatches_prop _ _ (fun j r => r.path = (files.getD j ([], [])).1)
      (fun b batch j i => rfl) _ _ _
      (fun j r hr => by rw [getD_replicate_none] at hr; cases hr) i resp hresp
  · rw [hdef, processBatches_snd, List.nil_append, List.map_map]
    have := nodup_keys_groupRoute (fun k pc =>
      ((CompositeBackend.get_backend_and_key sortedRoutes default pc.1).1,
       (k, (CompositeBackend.get_backend_and_key sortedRoutes default pc.1).2, pc.2))) files
    simpa [Function.comp] using this
  · intro b tbf hmem
    rw [hdef, processBatches_snd, List.nil_append] at hmem
    obtain ⟨g, hg, hgeq⟩ := List.mem_map.mp hmem
    obtain ⟨b0, batch0⟩ := g
    injection hgeq with hb htbf
    subst hb
    have hb0 := groups_batch_eq _ files _ batch0 hg
    rw [← htbf, hb0, routedFrom_upload_map]
  · intro pc hpc
    obtain ⟨i, hi, hget⟩ := List.mem_iff_getElem.mp hpc
    have hmem0 := routedFrom_mem (fun k pc =>
      ((CompositeBackend.get_backend_and_key sortedRoutes default pc.1).1,
       (k, (CompositeBackend.get_backend_and_key sortedRoutes default pc.1).2, pc.2)))
      files 0 i hi
    simp only [Nat.zero_add] at hmem0
    have hne : ¬ (routedFrom (fun k pc =>
        ((CompositeBackend.get_backend_and_key sortedRoutes default pc.1).1,
         (k, (CompositeBackend.get_backend_and_key sortedRoutes default pc.1).2, pc.2)))
        ((CompositeBackend.get_backend_and_key sortedRoutes default files[i].1).1)
        0 files).isEmpty = true := by
      intro hc
      rw [List.isEmpty_iff] at hc
      rw [hc] at hmem0
      cases hmem0
    have hgmem := groups_mem_of_routed (fun k pc =>
      ((CompositeBackend.get_backend_and_key sortedRoutes default pc.1).1,
       (k, (CompositeBackend.get_backend_and_key sortedRoutes default pc.1).2, pc.2)))
      files _ hne
    rw [← hget]
    refine ⟨(routedFrom (fun k pc =>
        ((CompositeBackend.get_backend_and_key sortedRoutes default pc.1).1,
         (k, (CompositeBackend.get_backend_and_key sortedRoutes default pc.1).2, pc.2)))
        ((CompositeBackend.get_backend_and_key sortedRoutes default files[i].1).1)
        0 files).map (fun e => (e.2.1, e.2.2)), ?_⟩
    rw [hdef, processBatches_snd, List.nil_append]
    exact List.mem_map.mpr ⟨_, hgmem, rfl⟩

theorem download_files_spec {β : Type} [DecidableEq β] (sortedRoutes : List (Str × β))
    (default : β) (bdownload : β → List Str → List FileDownloadResponse)
    (paths : List Str) :
    (CompositeBackend.download_files sortedRoutes default bdownload paths).1.length =
      paths.length ∧
    (∀ i, i < paths.length →
      ∃ resp, (CompositeBackend.download_files sortedRoutes default bdownload paths).1.getD i
          none = some resp ∧ resp.path = paths.getD i []) ∧
    ((CompositeBackend.download_files sortedRoutes default bdownload paths).2.map
      Prod.fst).Nodup ∧
    (∀ b tps, (b, tps) ∈ (CompositeBackend.download_files sortedRoutes default bdownload paths).2 →
      tps = downloadGroupOf sortedRoutes default b paths) ∧
    (∀ q ∈ paths, ∃ tps,
      ((CompositeBackend.get_backend_and_key sortedRoutes default q).1, tps) ∈
        (CompositeBackend.download_files sortedRoutes default bdownload paths).2) := by
  have hdef : CompositeBackend.download_files sortedRoutes default bdownload paths =
      processBatches
        (fun b batch j i =>
          { path := paths.getD j [],
            content := ((bdownload b (batch.map (fun e => e.2))).getD i { path := [] }).content,
            error := ((bdownload b (batch.map (fun e => e.2))).getD i { path := [] }).error })
        (fun b batch => (b, batch.map (fun e => e.2)))
        (groupRoute (fun k q =>
          ((CompositeBackend.get_backend_and_key sortedRoutes default q).1,
           (k, (CompositeBackend.get_backend_and_key sortedRoutes default q).2))) paths)
        (List.replicate paths.length none) [] :=
    downloadAux_eq_processBatches paths bdownload _ _ _
  refine ⟨?_, ?_, ?_, ?_, ?_⟩
  · rw [hdef, processBatches_fst_length, List.length_replicate]
  · intro i hi
    have hmem0 := routedFrom_mem (fun k q =>
      ((CompositeBackend.get_backend_and_key sortedRoutes default q).1,
       (k, (CompositeBackend.get_backend_and_key sortedRoutes default q).2)))
      paths 0 i hi
    simp only [Nat.zero_add] at hmem0
    have hne : ¬ (routedFrom (fun k q =>
        ((CompositeBackend.get_backend_and_key sortedRoutes default q).1,
         (k, (CompositeBackend.get_backend_and_key sortedRoutes default q).2)))
        ((CompositeBackend.get_backend_and_key sortedRoutes default paths[i]).1)
        0 paths).isEmpty = true := by
      intro hc
      rw [List.isEmpty_iff] at hc
      rw [hc] at hmem0
      cases hmem0
    have hgmem := groups_mem_of_routed (fun k q =>
      ((CompositeBackend.get_backend_and_key sortedRoutes default q).1,
       (k, (CompositeBackend.get_backend_and_key sortedRoutes default q).2)))
      paths _ hne
    have hcover := processBatches_covers
      (fun b batch j i =>
        ({ path := paths.getD j [],
           content := ((bdownload b (batch.map (fun e => e.2))).getD i { path := [] }).content,
           error := ((bdownload b (batch.map (fun e => e.2))).getD i { path := [] }).error } :
          FileDownloadResponse))
      (fun b batch => (b, batch.map (fun e => e.2)))
      _ (List.replicate paths.length none) [] _ _ _ hgmem hmem0
      (by rw [List.length_replicate]; exact hi)
    rw [hdef]
    obtain ⟨resp, hresp⟩ := Option.isSome_iff_exists.mp hcover
    refine ⟨resp, hresp, ?_⟩
    exact processBatches_prop _ _ (fun j r => r.path = paths.getD j [])
      (fun b batch j i => rfl) _ _ _
      (fun j r hr => by rw [getD_replicate_none] at hr; cases hr) i resp hresp
  · rw [hdef, processBatches_snd, List.nil_append, List.map_map]
    have := nodup_keys_groupRoute (fun k q =>
      ((CompositeBackend.get_backend_and_key sortedRoutes default q).1,
       (k, (CompositeBackend.get_backend_and_key sortedRoutes default q).2))) paths
    simpa [Function.comp] using this
  · intro b tps hmem
    rw [hdef, processBatches_snd, List.nil_append] at hmem
    obtain ⟨g, hg, hgeq⟩ := List.mem_map.mp hmem
    obtain ⟨b0, batch0⟩ := g
    injection hgeq with hb htps
    subst hb
    have hb0 := groups_batch_eq _ paths _ batch0 hg
    rw [← htps, hb0, routedFrom_download_map]
  · intro q hq
    obtain ⟨i, hi, hget⟩ := List.mem_iff_getElem.mp hq
    have hmem0 := routedFrom_mem (fun k q =>
      ((CompositeBackend.get_backend_and_key sortedRoutes default q).1,
       (k, (CompositeBackend.get_backend_and_key sortedRoutes default q).2)))
      paths 0 i hi
    simp only [Nat.zero_add] at hmem0
    have hne : ¬ (routedFrom (fun k q =>
        ((CompositeBackend.get_backend_and_key sortedRoutes default q).1,
         (k, (CompositeBackend.get_backend_and_key sortedRoutes default q).2)))
        ((CompositeBackend.get_backend_and_key sortedRoutes default paths[i]).1)
        0 paths).isEmpty = true := by
      intro hc
      rw [List.isEmpty_iff] at hc
      rw [hc] at hmem0
      cases hmem0
    have hgmem := groups_mem_of_routed (fun k q =>
      ((CompositeBackend.get_backend_and_key sortedRoutes default q).1,
       (k, (CompositeBackend.get_backend_and_key sortedRoutes default q).2)))
      paths _ hne
    rw [← hget]
    refine ⟨(routedFrom (fun k q =>
        ((CompositeBackend.get_backend_and_key sortedRoutes default q).1,
         (k, (CompositeBackend.get_backend_and_key sortedRoutes default q).2)))
        ((CompositeBackend.get_backend_and_key sortedRoutes default paths[i]).1)
        0 paths).map (fun e => e.2), ?_⟩
    rw [hdef, processBatches_snd, List.nil_append]
    exact List.mem_map.mpr ⟨_, hgmem, rfl⟩

/-- Claim C2: for every input list to the composite router's batch upload /
download: each underlying backend's batch operation is invoked exactly once
with the group of elements that routed to it — the invocation trace has no
duplicate backend, each recorded batch is exactly the stripped elements that
route to that backend in input order, and every element's backend is invoked
— and the result list has exactly one entry per input element, in input
order, each carrying the original (unstripped) input path. -/
theorem claim_C2 {β : Type} [DecidableEq β] (sortedRoutes : List (Str × β)) (default : β)
    (bupload : β → List (Str × Bytes) → List FileUploadResponse)
    (bdownload : β → List Str → List FileDownloadResponse)
    (files : List (Str × Bytes)) (paths : List Str) :
    ((CompositeBackend.upload_files sortedRoutes default bupload files).1.length =
        files.length ∧
      (∀ i, i < files.length →
        ∃ resp, (CompositeBackend.upload_files sortedRoutes default bupload files).1.getD i
            none = some resp ∧ resp.path = (files.getD i ([], [])).1) ∧
      ((CompositeBackend.upload_files sortedRoutes default bupload files).2.map
        Prod.fst).Nodup ∧
      (∀ b tbf,
        (b, tbf) ∈ (CompositeBackend.upload_files sortedRoutes default bupload files).2 →
        tbf = uploadGroupOf sortedRoutes default b files) ∧
      (∀ pc ∈ files, ∃ tbf,
        ((CompositeBackend.get_backend_and_key sortedRoutes default pc.1).1, tbf) ∈
          (CompositeBackend.upload_files sortedRoutes default bupload files).2)) ∧
    ((CompositeBackend.download_files sortedRoutes default bdownload paths).1.length =
        paths.length ∧
      (∀ i, i < paths.length →
        ∃ resp, (CompositeBackend.download_files sortedRoutes default bdownload paths).1.getD i
            none = some resp ∧ resp.path = paths.getD i []) ∧
      ((CompositeBackend.download_files sortedRoutes default bdownload paths).2.map
        Prod.fst).Nodup ∧
      (∀ b tps,
        (b, tps) ∈ (CompositeBackend.download_files sortedRoutes default bdownload paths).2 →
        tps = downloadGroupOf sortedRoutes default b paths) ∧
      (∀ q ∈ paths, ∃ tps,
        ((CompositeBackend.get_backend_and_key sortedRoutes default q).1, tps) ∈
          (CompositeBackend.download_files sortedRoutes default bdownload paths).2)) :=
  ⟨upload_files_spec sortedRoutes default bupload files,
   download_files_spec sortedRoutes default bdownload paths⟩

/-- Claim C2 witness: the first result slot of a concrete two-element upload
through a concrete router carries the original first input path. -/
theorem claim_C2_witness :
    ∃ resp, (CompositeBackend.upload_files
        (CompositeBackend.sortRoutes [((("/memories/").data), 1)]) 0
        (fun _ fs => fs.map (fun f => { path := f.1 }))
        [((("/memories/a").data), [65]), ((("/other/b").data), [66])]).1.getD 0 none =
      some resp ∧
      resp.path = (([((("/memories/a").data), [65]), ((("/other/b").data), [66])] :
        List (Str × Bytes)).getD 0 ([], [])).1 :=
  (claim_C2 (CompositeBackend.sortRoutes [((("/memories/").data), 1)]) 0
    (fun _ fs => fs.map (fun f => { path := f.1 }))
    (fun _ ps => ps.map (fun p => { path := p }))
    [((("/memories/a").data), [65]), ((("/other/b").data), [66])] []).1.2.1 0 (by decide)
